import Mathlib

/-!
IFEM-ThermoElasticity: the heat-equation solution driver.

A shallow embedding of `SIMHeatEquation` (src/ThermoElastic/SIMHeatEquation.h)
and of the program entry points (src/main_HeatEquation.C), followed by the
properties proved about them.

Conventions of the embedding.

* C++ `int` values are `Int`; `size_t` values are `Nat`, reduced modulo `2^64`
  where the source subtracts or multiplies them.
* C++ `double` values are only stored and passed on by the modelled code, never
  computed with; they are carried as rationals (`Double`).
* Objects held through pointers (materials, functions) are handles.
* The finite element engine (assembly, linear solve, integration) lives outside
  the repository; each engine call is an explicit function argument.
* Text output is a list of lines; the two header lines and the data row written
  by `saveIntegral` are the constructors of `Line`.
-/

namespace ThermoElastic

/-! ## Boundary integrals: data model -/

/-- A C++ `double`; the driver stores and prints such values but does no arithmetic on them. -/
abbrev Double := Rat

/-- The struct `BoundaryFlux`: parameters of one boundary heat flux (or stored
energy) calculation. The defaults are those of its default constructor. -/
structure BoundaryFlux where
  /-- Name of the output file. -/
  file : String := ""
  /-- Name of the topology set. -/
  set : String := ""
  /-- Code identifying the boundary. -/
  code : Int := 0
  /-- Time level increment (the stride). -/
  timeIncr : Int := 1
deriving DecidableEq, Repr

/-- The part of `TimeStep` the driver reads: the step counter `tp.step` and the
current time `tp.time.t`. -/
structure TimeStep where
  step : Int
  t : Double
deriving DecidableEq, Repr

/-- One line of text written by `saveIntegral`.
* `blank`: the `std::endl` sent to standard output when no file is given;
* `title flux code`: `# Heat flux over surface with code <code>` when `flux`,
  `# Stored energy in volume with code <code>` otherwise;
* `columns flux`: `#     time        Flux` when `flux`, `#     time      Energy` otherwise;
* `row t v`: the time printed with `%10.6f` followed by the value printed with ` %11.6g`. -/
inductive Line where
  | blank
  | title (flux : Bool) (code : Int)
  | columns (flux : Bool)
  | row (t : Double) (v : Double)
deriving DecidableEq, Repr

/-- Record of one call of the engine's integration primitive
(`SIM::getBoundaryForce` for a flux, `SIM::integrate` for a stored energy). -/
structure EngineCall where
  flux : Bool
  code : Int
  tp : TimeStep
deriving DecidableEq, Repr

/-- Everything `saveIntegral` can affect or depends on: the file system (`none`
for a file that does not exist), standard output, the `IFEM::cout` log stream,
the trace of integrals the engine was asked to compute, and the file names
under which an output stream can be opened (`writable`; a name in a missing
directory or a read-only file is not). -/
structure World where
  files : String → Option (List Line)
  stdout : List Line
  log : List Line
  calls : List EngineCall
  writable : String → Bool

/-- The engine's integration primitive as seen by `saveIntegral`: for a flux
flag, a property code and a time step it yields the reduced integral vector
(empty when the engine found no contribution). -/
abbrev Integrator := Bool → Int → TimeStep → List Double

/-- The two header lines written on step 1. -/
def header (flux : Bool) (code : Int) : List Line :=
  [Line.title flux code, Line.columns flux]

/-- The effect of a successful `new std::ofstream(name, mode)` on the content
the stream appends to: `std::ios::out` truncates, `std::ios::app` keeps what is
there and creates the file when it is missing. -/
def openFile (w : World) (name : String) (truncate : Bool) : List Line :=
  if truncate then [] else (w.files name).getD []

/-- Closing the stream leaves `content` in file `name`. -/
def closeFile (w : World) (name : String) (content : List Line) : World :=
  { w with files := fun p => if p = name then some content else w.files p }

/-- Method `SIMHeatEquation::saveIntegral`: compute and save a boundary heat flux
(`flux = true`) or the stored energy in a volume (`flux = false`).
`myPid` is the rank of this partition. Returns the boolean result of the method
together with the world it leaves behind. The source never tests the stream it
opens: when the destination cannot be opened the writes to the stream are lost,
no file is created or changed, and the method returns `true` all the same. -/
def saveIntegral (myPid : Nat) (integrate : Integrator) (bf : BoundaryFlux)
    (tp : TimeStep) (flux : Bool) (w : World) : Bool × World :=
  if bf.code = 0 ∨ bf.timeIncr < 1 ∨ bf.set = "" then (true, w)
  else if tp.step < 1 ∨ (tp.step - 1).tmod bf.timeIncr > 0 then (true, w)
  else
    let integral := integrate flux bf.code tp
    let w1 : World := { w with calls := w.calls ++ [⟨flux, bf.code, tp⟩] }
    match integral with
    | [] => (false, w1)
    | v :: _ =>
      let head : List Line := if tp.step = 1 then header flux bf.code else []
      let str : List Line := if myPid = 0 then [Line.row tp.t v] else []
      if bf.file = "" then
        let w2 : World :=
          if myPid = 0 then { w1 with stdout := w1.stdout ++ [Line.blank] ++ head } else w1
        (true, { w2 with log := w2.log ++ str })
      else if myPid = 0 then
        if w1.writable bf.file then
          let os := openFile w1 bf.file (tp.step = 1) ++ head
          (true, closeFile w1 bf.file (os ++ str))
        else (true, w1)
      else (true, w1)

/-- The condition under which the spec `bf` is due on step `tp.step`, in the
words of the specification: non-zero code, stride at least 1, non-empty set,
step at least 1 and `(step - 1) mod stride = 0`. -/
def due (bf : BoundaryFlux) (tp : TimeStep) : Prop :=
  bf.code ≠ 0 ∧ 1 ≤ bf.timeIncr ∧ bf.set ≠ "" ∧ 1 ≤ tp.step ∧
    (tp.step - 1) % bf.timeIncr = 0

/-- The call `saveIntegral` went on to ask the engine for the integral. -/
def fired (integrate : Integrator) (myPid : Nat) (bf : BoundaryFlux) (tp : TimeStep)
    (flux : Bool) (w : World) : Prop :=
  (saveIntegral myPid integrate bf tp flux w).2.calls = w.calls ++ [⟨flux, bf.code, tp⟩]

/-- The time step record of step `s` of a run, `time s` being the simulated
time reached at that step. -/
def stepAt (time : Nat → Double) (s : Nat) : TimeStep := ⟨s, time s⟩

/-- The reporting history of one spec over a run: `saveIntegral` is called for
the steps `1, 2, ..., n` in this order, each call starting from the world the
previous one left behind. -/
def saveIntegralUpTo (myPid : Nat) (integrate : Integrator) (bf : BoundaryFlux)
    (flux : Bool) (time : Nat → Double) : Nat → World → World
  | 0, w => w
  | n + 1, w =>
    (saveIntegral myPid integrate bf (stepAt time (n + 1)) flux
      (saveIntegralUpTo myPid integrate bf flux time n w)).2

/-- The steps among `1, ..., n` on which a spec of stride `S` is reported, in
step order: those `s` with `(s - 1) mod S = 0`. -/
def reportedSteps (S : Int) (n : Nat) : List Nat :=
  (List.range' 1 n).filter fun s => ((s : Int) - 1) % S = 0

/-- The data rows a report holds after `n` steps: one row per reported step,
with the time of that step and the value `val s` of the integral. -/
def dataRows (S : Int) (time val : Nat → Double) (n : Nat) : List Line :=
  (reportedSteps S n).map fun s => Line.row (time s) (val s)

/-! ## Solution history -/

/-- A solution vector (`Vector`): the nodal values. -/
abbrev Vector := List Double

/-- The member `temperature` (`Vectors`): index 0 is the current solution,
higher indices are older ones. -/
abbrev Vectors := List Vector

/-- Conversion of a `size_t` value to `int` (two's complement, 32 bits). -/
def toInt (x : Nat) : Int :=
  if x % 2 ^ 32 < 2 ^ 31 then ((x % 2 ^ 32 : Nat) : Int) else ((x % 2 ^ 32 : Nat) : Int) - 2 ^ 32

/-- The loop `for (; n > 0; n--) temperature[n] = temperature[n-1];` entered
with loop variable `n`. -/
def shiftLoop : Nat → Vectors → Vectors
  | 0, temperature => temperature
  | n + 1, temperature =>
    shiftLoop n
      (match temperature[n]? with
       | some v => temperature.set (n + 1) v
       | none => temperature)

/-- Method `SIMHeatEquation::advanceStep`: update the temperature vectors between time
steps. The loop variable starts at `int n = temperature.size()-1`, the
subtraction being done in `size_t`; the loop runs while `n > 0`. The call
`he.advanceStep()` concerns the integrand only. -/
def advanceStep (temperature : Vectors) : Bool × Vectors :=
  let n : Int := toInt ((temperature.length + 2 ^ 64 - 1) % 2 ^ 64)
  (true, shiftLoop n.toNat temperature)

/-- The engine calls made by `solveStep`: `assembleSystem(tp.time,temperature)`
reports success or failure; `solveSystem` yields the solution of the assembled
system (which depends on the time and on the vectors assembled from), or
`none` when the solve fails. -/
structure Solver where
  assembleSystem : TimeStep → Vectors → Bool
  solveSystem : TimeStep → Vectors → Option Vector

/-- Method `SIMHeatEquation::solveStep`: assemble, then solve into
`temperature.front()`; a failed assembly or solve returns `false`. The calls
that prepare the engine (`updateDirichlet`, `setMode`, `setQuadratureRule`) and
the printing do not touch `temperature` and are left out. -/
def solveStep (E : Solver) (tp : TimeStep) (temperature : Vectors) : Bool × Vectors :=
  if E.assembleSystem tp temperature = false then (false, temperature)
  else
    match E.solveSystem tp temperature with
    | none => (false, temperature)
    | some u => (true, temperature.set 0 u)

/-- One time step of the driver loop: `advanceStep`, then `solveStep`; `none`
when the step fails. -/
def timeStep (E : Solver) (tp : TimeStep) (temperature : Vectors) : Option Vectors :=
  match solveStep E tp (advanceStep temperature).2 with
  | (true, t) => some t
  | (false, _) => none

/-- The history after the steps `1, ..., n`, starting from `temperature`. -/
def runSteps (E : Solver) (time : Nat → Double) : Nat → Vectors → Option Vectors
  | 0, temperature => some temperature
  | n + 1, temperature =>
    (runSteps E time n temperature).bind (timeStep E (stepAt time (n + 1)))

/-- The converged solution of step `s`: the vector the engine solves for in
step `s`, from the history advanced at the start of that step. -/
def convergedAt (E : Solver) (time : Nat → Double) (temperature : Vectors) :
    Nat → Option Vector
  | 0 => none
  | s + 1 =>
    (runSteps E time s temperature).bind fun t =>
      E.solveSystem (stepAt time (s + 1)) (advanceStep t).2

/-! ## Simulator state, materials and property codes -/

/-- Handle of a material object (`Integrand::MaterialType*`). -/
structure Material where
  id : Nat
deriving DecidableEq, Repr

/-- Handle of a scalar-valued function (`RealFunc*`). -/
structure RealFunc where
  id : Nat
deriving DecidableEq, Repr

/-- Handle of a vector-valued function (`VecFunc*`). -/
structure VecFunc where
  id : Nat
deriving DecidableEq, Repr

/-- What the driver sets on the primary integrand `he`. -/
structure Integrand where
  material : Option Material := none
  flux : Option RealFunc := none
  source : Option RealFunc := none
deriving DecidableEq, Repr

/-- What the driver sets on the weak Dirichlet integrand `wdc`. -/
structure WeakDirichlet where
  material : Option Material := none
  flux : Option RealFunc := none
  envTemperature : Option Double := none
  envConductivity : Option Double := none
deriving DecidableEq, Repr

/-- The property classifications (`Property::Type`) the driver refers to. -/
inductive PropertyType where
  | UNDEFINED
  | MATERIAL
  | DIRICHLET
  | NEUMANN
  | NEUMANN_GENERIC
  | ROBIN
  | OTHER
deriving DecidableEq, Repr

/-- The fields of `Property` the driver reads: classification and property index. -/
structure Property where
  pcode : PropertyType
  pindx : Nat
deriving DecidableEq, Repr

/-- The part of an analytical solution (`AnaSol`) the driver asks for:
`getScalarSecSol()`, the secondary solution field, when there is one. -/
structure AnaSol where
  scalarSecSol : Option VecFunc
deriving DecidableEq, Repr

/-- The members of `SIMHeatEquation` and of its base class `Dim` that the
modelled methods read or write. The defaults are the state the constructor
leaves. -/
structure Sim where
  he : Integrand := {}
  wdc : WeakDirichlet := {}
  mVec : List Material := []
  fluxes : List BoundaryFlux := []
  senergy : List BoundaryFlux := []
  mySol : Option AnaSol := none
  myProps : List Property := []
  myScalars : List (Int × RealFunc) := []
  myVectors : List (Int × VecFunc) := []
deriving DecidableEq, Repr

/-- Assignment `m[key] = value` on a `std::map` kept as an association list. -/
def mapSet {β : Type} (m : List (Int × β)) (key : Int) (value : β) : List (Int × β) :=
  (key, value) :: m.filter fun e => e.1 ≠ key

/-- Method `SIMHeatEquation::initMaterial`: initialise the material of property index
`propInd`. The clamp `propInd = mVec.size()-1` is `size_t` arithmetic. The read
`mVec[propInd]` is unchecked in the source; a read outside the vector is
undefined behaviour and is returned as `Except.error propInd`. -/
def initMaterial (sim : Sim) (propInd : Nat) : Except Nat (Bool × Sim) :=
  let propInd :=
    if propInd ≥ sim.mVec.length then (sim.mVec.length + 2 ^ 64 - 1) % 2 ^ 64 else propInd
  match sim.mVec[propInd]? with
  | none => Except.error propInd
  | some m =>
    Except.ok (true, { sim with he := { sim.he with material := some m },
                                wdc := { sim.wdc with material := some m } })

/-- Method `SIMHeatEquation::initNeumann`: look the property index up in `myScalars`
and install the function found as flux of both integrands. -/
def initNeumann (sim : Sim) (propInd : Nat) : Bool × Sim :=
  match sim.myScalars.lookup (toInt propInd) with
  | none => (false, sim)
  | some f =>
    (true, { sim with he := { sim.he with flux := some f },
                      wdc := { sim.wdc with flux := some f } })

/-- Modelled from the spec: `setPropertyType` of the base class is not part of
the sources; the spec has the property of the given code end up classified as
requested. Every property with index `code` that is still unclassified
receives the classification `ptype`. -/
def setPropertyType (code : Int) (ptype : PropertyType) (props : List Property) :
    List Property :=
  props.map fun p =>
    if (p.pindx : Int) = code ∧ p.pcode = PropertyType.UNDEFINED then { p with pcode := ptype }
    else p

/-! ## Parsing the `heatequation` input block -/

/-- A `heatflux` (`heatflux = true`) or `storedenergy` element with its
attributes. A string attribute that is absent reads as the empty string (the
default of the `BoundaryFlux` field it is read into); an absent integer
attribute is `none`. -/
structure QuantityElem where
  heatflux : Bool
  set : String := ""
  file : String := ""
  stride : Option Int := none
  code : Option Int := none
deriving DecidableEq, Repr

/-- The child elements of the input block, by tag (tags compare without
regard to case).
* `anasol code sol`: `sol` is the `AnaSol` built from the element;
* `quantity q`: a `heatflux` or `storedenergy` element;
* `environmentproperties T alpha`: the attributes when given;
* `source type func`: the `type` attribute in lower case and the function
  parsed from the first child node, when there is one;
* `other tag`: any other element. -/
inductive Child where
  | anasol (code : Option Int) (sol : AnaSol)
  | quantity (q : QuantityElem)
  | environmentproperties (T : Option Double) (alpha : Option Double)
  | source (type : String) (func : Option RealFunc)
  | other (tag : String)
deriving DecidableEq, Repr

/-- What `parse` uses of the base class `Dim`, whose code is outside the
repository: the property code generator `getUniquePropertyCode(set, base)` and
the base class parser applied to elements the driver does not know. -/
structure Base where
  getUniquePropertyCode : String → Nat → Int
  parse : String → Sim → Sim

/-- Modelled from the spec: `getUniquePropertyCode` is not part of the sources;
the spec gives the generated code as `baseOffset * (existingSpecCount+1)`,
which is the base the caller requests. -/
def specUniquePropertyCode (_set : String) (base : Nat) : Int := base

/-- The base class with the code generator of the spec and a base parser that
leaves the modelled members alone. -/
def specBase : Base := ⟨specUniquePropertyCode, fun _ sim => sim⟩

/-- The `BoundaryFlux` built from a `heatflux`/`storedenergy` element when the
list of its kind holds `oldcode` specs: the attributes `set`, `file` and
`stride` are read; `code` is read only if the set name is empty; a non-empty
set name then replaces the code by a generated one. -/
def parseQuantity (B : Base) (q : QuantityElem) (oldcode : Nat) : BoundaryFlux :=
  let flux : BoundaryFlux := {}
  let flux := { flux with set := q.set }
  let flux := { flux with file := q.file }
  let flux := { flux with timeIncr := q.stride.getD flux.timeIncr }
  let flux := if flux.set = "" then { flux with code := q.code.getD flux.code } else flux
  if flux.set ≠ "" then
    { flux with code := B.getUniquePropertyCode flux.set ((oldcode + 1) * 1000 % 2 ^ 64) }
  else flux

/-- One iteration of the loop over the child elements in `parse`. -/
def parseChild (B : Base) (sim : Sim) : Child → Sim
  | Child.anasol code sol =>
    let mySol := sim.mySol.getD sol
    let sim := { sim with mySol := some mySol }
    match code, mySol.scalarSecSol with
    | some code, some secsol =>
      if code > 0 then
        { sim with myProps := setPropertyType code PropertyType.NEUMANN sim.myProps,
                   myVectors := mapSet sim.myVectors code secsol }
      else sim
    | _, _ => sim
  | Child.quantity q =>
    if q.heatflux then
      { sim with fluxes := sim.fluxes ++ [parseQuantity B q sim.fluxes.length] }
    else
      { sim with senergy := sim.senergy ++ [parseQuantity B q sim.senergy.length] }
  | Child.environmentproperties T alpha =>
    { sim with wdc := { sim.wdc with envTemperature := some (T.getD (547 / 2)),
                                     envConductivity := some (alpha.getD 1) } }
  | Child.source type func =>
    match func with
    | some f => if type = "expression" then { sim with he := { sim.he with source := some f } }
                else sim
    | none => sim
  | Child.other tag => B.parse tag sim

/-- Method `SIMHeatEquation::parse` for an element whose tag is the input context
(`heatequation`): the loop over its children; the method then returns `true`.
The two other branches of the method (a `thermoelasticity` element, which fills
the material vector, and elements handed to the base class) are not modelled. -/
def parse (B : Base) (children : List Child) (sim : Sim) : Bool × Sim :=
  (true, children.foldl (parseChild B) sim)

/-! ## Set-up and program exit code -/

/-- Method `SolverConfigurator<SIMHeatEquation>::setup`, as far as its return value
goes: `read` is the outcome of `ad.read(infile)`, `preprocess` the outcome of
`ad.preprocess()` (called only after a successful read). -/
def setup (read preprocess : Bool) : Int :=
  if !read then 2
  else if !preprocess then 3
  else 0

/-- Function `runSimulator`: `configure` is the value returned by
`ConfigureSIM(tempModel, infile)`, `solverRead` the outcome of
`solver.read(infile)`, and `solveProblem` the value returned by
`solver.solveProblem`. -/
def runSimulator (configure : Int) (solverRead : Bool) (solveProblem : Int) : Int :=
  if configure ≠ 0 ∨ !solverRead then 1
  else solveProblem

/-- Function `main`, after the options are read: without an input file the usage text is
printed and 0 returned; otherwise the result of `runSimulator` (for either
dimension) is the exit code. -/
def main (infile : Option String) (configure : Int) (solverRead : Bool)
    (solveProblem : Int) : Int :=
  match infile with
  | none => 0
  | some _ => runSimulator configure solverRead solveProblem

/-! ## Coupling of integrands to property codes -/

/-- The integrand object an entry of `myInts` points to: the heat equation
integrand `he` (the constructor lets `myProblem` point to it) or the weak
Dirichlet integrand `wdc`. -/
inductive IntegrandRef where
  | he
  | wdc
deriving DecidableEq, Repr

/-- The member `myInts` of the base class: the entries (property code,
integrand) in the order they were inserted. -/
abbrev IntegrandMap := List (Int × IntegrandRef)

/-- The integrands bound to the key `k`, in the order they were inserted. -/
def bindings (m : IntegrandMap) (k : Int) : List IntegrandRef :=
  (m.filter fun e => e.1 = k).map Prod.snd

/-- The test `myInts.find(k) != myInts.end()`. -/
def hasKey (m : IntegrandMap) (k : Int) : Bool :=
  m.any fun e => e.1 = k

/-- The call `myInts.insert(std::make_pair(k,v))`. The declaration of the
container type is in the base class, outside the repository, so its kind is an
argument: with `multi = true` the container accepts several entries per key
and the insertion always adds one; with `multi = false` the keys are unique and
the insertion does nothing when the key is present. -/
def mapInsert (multi : Bool) (m : IntegrandMap) (k : Int) (v : IntegrandRef) : IntegrandMap :=
  if multi = false ∧ hasKey m k = true then m else m ++ [(k, v)]

/-- The property is classified `NEUMANN_GENERIC` or `ROBIN`. -/
def isGenericNeumannOrRobin (p : Property) : Bool :=
  p.pcode = PropertyType.NEUMANN_GENERIC || p.pcode = PropertyType.ROBIN

/-- One iteration of the loop over the properties in `preprocessA`; the
property index is converted to the `int` key of the map. -/
def coupleStep (multi : Bool) (myInts : IntegrandMap) (p : Property) : IntegrandMap :=
  if isGenericNeumannOrRobin p then
    if hasKey myInts (toInt p.pindx) = false then
      mapInsert multi myInts (toInt p.pindx) IntegrandRef.wdc
    else myInts
  else myInts

/-- Method `SIMHeatEquation::preprocessA`: insert the problem integrand under
key 0, then couple the weak Dirichlet integrand to the generic Neumann and
Robin property codes that have no integrand yet. -/
def preprocessA (multi : Bool) (myProps : List Property) (myInts : IntegrandMap) :
    IntegrandMap :=
  myProps.foldl (coupleStep multi) (mapInsert multi myInts 0 IntegrandRef.he)

/-- Some property classified generic Neumann or Robin has the key `k`. -/
def coupled (myProps : List Property) (k : Int) : Bool :=
  myProps.any fun p => isGenericNeumannOrRobin p && toInt p.pindx = k

/-! ## Saving the results of a time step -/

/-- The output options `saveStep` reads: `opt.saveInc` and `opt.format`. -/
structure SaveOptions where
  saveInc : Int
  format : Int
deriving DecidableEq, Repr

/-- The output primitives of the base class that `saveStep` calls, each given
by the value it returns: `savePoints` (point samples), `writeGlvS1` (the
temperature field; negative on failure) and `writeGlvStep`. -/
structure Writer where
  savePoints : TimeStep → Bool
  writeGlvS1 : Int → TimeStep → Int
  writeGlvStep : Int → TimeStep → Bool

/-- What `saveStep` leaves behind: the world of `saveIntegral` and the record
of the requests made to the writer (the time steps `savePoints` was called for,
the dump numbers of the field writes and of the step writes). -/
structure StepOutput where
  world : World
  pointSamples : List TimeStep
  fieldWrites : List Int
  stepWrites : List Int

/-- One of the two loops `ok &= this->saveIntegral(...)` of `saveStep`, started
with the flag and the world in `acc`; every spec of the list is passed to
`saveIntegral`, whatever the flag. -/
def saveIntegrals (myPid : Nat) (integrate : Integrator) (specs : List BoundaryFlux)
    (tp : TimeStep) (flux : Bool) (acc : Bool × World) : Bool × World :=
  specs.foldl
    (fun acc bf =>
      ((acc.1 && (saveIntegral myPid integrate bf tp flux acc.2).1),
        (saveIntegral myPid integrate bf tp flux acc.2).2))
    acc

/-- The remainder `step % saveInc` and the quotient `step / saveInc` of two
`int` are undefined in C++ when the divisor is 0, and when the dividend is the
least `int` and the divisor is -1. -/
def divisionUndefined (step saveInc : Int) : Prop :=
  saveInc = 0 ∨ (step = -2 ^ 31 ∧ saveInc = -1)

instance (step saveInc : Int) : Decidable (divisionUndefined step saveInc) := by
  unfold divisionUndefined
  exact inferInstance

/-- Method `SIMHeatEquation::saveStep`: save the integrals of all configured
heat fluxes and stored energies, then the point samples, then (on the steps the
save increment selects, unless the format is negative or something failed) the
temperature field. The condition of the source evaluates the remainder
`tp.step % opt.saveInc` first, before the format and the flag are looked at;
where that remainder is undefined the call has no defined result, which is
`none`. Otherwise the remainder and the quotient are the truncating ones. -/
def saveStep (myPid : Nat) (integrate : Integrator) (W : Writer) (opt : SaveOptions)
    (sim : Sim) (tp : TimeStep) (out : StepOutput) : Option (Bool × StepOutput) :=
  let r1 := saveIntegrals myPid integrate sim.fluxes tp true (true, out.world)
  let r2 := saveIntegrals myPid integrate sim.senergy tp false r1
  let ok := r2.1 && W.savePoints tp
  let out1 : StepOutput := { out with world := r2.2, pointSamples := out.pointSamples ++ [tp] }
  if divisionUndefined tp.step opt.saveInc then none
  else if tp.step.tmod opt.saveInc > 0 ∨ opt.format < 0 ∨ ok = false then some (ok, out1)
  else
    let iDump := 1 + tp.step.tdiv opt.saveInc
    let out2 : StepOutput := { out1 with fieldWrites := out1.fieldWrites ++ [iDump] }
    if W.writeGlvS1 iDump tp < 0 then some (false, out2)
    else some (W.writeGlvStep iDump tp, { out2 with stepWrites := out2.stepWrites ++ [iDump] })

/-- The two worlds hold the same files, the same text on both output streams
and the same writable file names (they may differ in the trace of engine
calls). -/
def sameOutput (w1 w2 : World) : Prop :=
  w1.files = w2.files ∧ w1.stdout = w2.stdout ∧ w1.log = w2.log ∧
    w1.writable = w2.writable

/-- The simulator without one spec: the list of flux specs (`flux = true`) or
of stored energy specs is replaced by `specs`. -/
def withSpecs (sim : Sim) (flux : Bool) (specs : List BoundaryFlux) : Sim :=
  if flux then { sim with fluxes := specs } else { sim with senergy := specs }

/-- The list of flux specs (`flux = true`) or of stored energy specs. -/
def specsOf (sim : Sim) (flux : Bool) : List BoundaryFlux :=
  if flux then sim.fluxes else sim.senergy

/-! ## Boundary integrals: properties -/

theorem tmod_pos_iff_emod_ne_zero {a b : Int} (ha : 0 ≤ a) (hb : 1 ≤ b) :
    a.tmod b > 0 ↔ a % b ≠ 0 := by
  rw [Int.tmod_eq_emod ha (by omega)]
  have := Int.emod_nonneg a (show b ≠ 0 by omega)
  omega

theorem saveIntegral_of_not_due (myPid : Nat) (integrate : Integrator) (bf : BoundaryFlux)
    (tp : TimeStep) (flux : Bool) (w : World) (h : ¬ due bf tp) :
    saveIntegral myPid integrate bf tp flux w = (true, w) := by
  unfold saveIntegral
  by_cases h1 : bf.code = 0 ∨ bf.timeIncr < 1 ∨ bf.set = ""
  · rw [if_pos h1]
  · rw [if_neg h1]
    have h2 : tp.step < 1 ∨ (tp.step - 1).tmod bf.timeIncr > 0 := by
      by_contra hc
      push_neg at h1 hc
      apply h
      refine ⟨h1.1, h1.2.1, h1.2.2, hc.1, ?_⟩
      by_contra hne
      have := (tmod_pos_iff_emod_ne_zero (a := tp.step - 1) (by omega) h1.2.1).2 hne
      omega
    rw [if_pos h2]

theorem saveIntegral_calls_of_due (myPid : Nat) (integrate : Integrator) (bf : BoundaryFlux)
    (tp : TimeStep) (flux : Bool) (w : World) (h : due bf tp) :
    (saveIntegral myPid integrate bf tp flux w).2.calls = w.calls ++ [⟨flux, bf.code, tp⟩] := by
  obtain ⟨hc, hs, hn, hp, hm⟩ := h
  unfold saveIntegral
  have h1 : ¬ (bf.code = 0 ∨ bf.timeIncr < 1 ∨ bf.set = "") := by
    push_neg; exact ⟨hc, by omega, hn⟩
  have h2 : ¬ (tp.step < 1 ∨ (tp.step - 1).tmod bf.timeIncr > 0) := by
    rw [tmod_pos_iff_emod_ne_zero (by omega) hs]
    push_neg; exact ⟨by omega, hm⟩
  rw [if_neg h1, if_neg h2]
  cases integrate flux bf.code tp with
  | nil => rfl
  | cons v vs =>
    simp only [closeFile]
    split_ifs <;> rfl

/-- C1. `saveIntegral` goes on to compute the integral exactly when the spec is
due (non-zero code, stride at least 1, non-empty set name, step at least 1 and
`(step - 1) mod stride = 0`); in every other case it returns success and leaves
the world (files, output streams, engine trace) untouched. In particular an
enabled spec fires on step 1 for every stride, and never on a step with
`(step - 1) mod stride ≠ 0`. -/
theorem saveIntegral_fires_iff_due (myPid : Nat) (integrate : Integrator) (bf : BoundaryFlux)
    (tp : TimeStep) (flux : Bool) (w : World) :
    (fired integrate myPid bf tp flux w ↔ due bf tp) ∧
    (¬ due bf tp → saveIntegral myPid integrate bf tp flux w = (true, w)) ∧
    (bf.code ≠ 0 → 1 ≤ bf.timeIncr → bf.set ≠ "" → tp.step = 1 →
      fired integrate myPid bf tp flux w) ∧
    ((tp.step - 1) % bf.timeIncr ≠ 0 → ¬ fired integrate myPid bf tp flux w) := by
  have hiff : fired integrate myPid bf tp flux w ↔ due bf tp := by
    constructor
    · intro hf
      by_contra hnd
      unfold fired at hf
      rw [saveIntegral_of_not_due myPid integrate bf tp flux w hnd] at hf
      simp at hf
    · exact saveIntegral_calls_of_due myPid integrate bf tp flux w
  refine ⟨hiff, saveIntegral_of_not_due myPid integrate bf tp flux w, ?_, ?_⟩
  · intro hc hs hn h1
    exact hiff.2 ⟨hc, hs, hn, by omega, by simp [h1]⟩
  · intro hm hf
    exact hm (hiff.1 hf).2.2.2.2

theorem due_stepAt_iff (bf : BoundaryFlux) (time : Nat → Double) (s : Nat)
    (hc : bf.code ≠ 0) (hS : 1 ≤ bf.timeIncr) (hset : bf.set ≠ "") (hs : 1 ≤ s) :
    due bf (stepAt time s) ↔ ((s : Int) - 1) % bf.timeIncr = 0 := by
  unfold due stepAt
  constructor
  · intro h; exact h.2.2.2.2
  · intro h; exact ⟨hc, hS, hset, by simpa using hs, h⟩

/-- The file left by one firing call on the coordinating partition. -/
theorem saveIntegral_file_of_due (integrate : Integrator) (bf : BoundaryFlux) (tp : TimeStep)
    (flux : Bool) (w : World) (v : Double) (rest : List Double)
    (hd : due bf tp) (hfile : bf.file ≠ "") (hopen : w.writable bf.file = true)
    (hint : integrate flux bf.code tp = v :: rest) :
    (saveIntegral 0 integrate bf tp flux w).2.files bf.file =
      some (openFile w bf.file (tp.step = 1) ++
        (if tp.step = 1 then header flux bf.code else []) ++ [Line.row tp.t v]) := by
  obtain ⟨hc, hs, hn, hp, hm⟩ := hd
  unfold saveIntegral
  have h1 : ¬ (bf.code = 0 ∨ bf.timeIncr < 1 ∨ bf.set = "") := by
    push_neg; exact ⟨hc, by omega, hn⟩
  have h2 : ¬ (tp.step < 1 ∨ (tp.step - 1).tmod bf.timeIncr > 0) := by
    rw [tmod_pos_iff_emod_ne_zero (by omega) hs]
    push_neg; exact ⟨by omega, hm⟩
  rw [if_neg h1, if_neg h2, hint]
  simp [hfile, hopen, closeFile, openFile]

theorem saveIntegral_writable (myPid : Nat) (integrate : Integrator) (bf : BoundaryFlux)
    (tp : TimeStep) (flux : Bool) (w : World) :
    (saveIntegral myPid integrate bf tp flux w).2.writable = w.writable := by
  unfold saveIntegral
  by_cases h1 : bf.code = 0 ∨ bf.timeIncr < 1 ∨ bf.set = ""
  · rw [if_pos h1]
  · rw [if_neg h1]
    by_cases h2 : tp.step < 1 ∨ (tp.step - 1).tmod bf.timeIncr > 0
    · rw [if_pos h2]
    · rw [if_neg h2]
      cases integrate flux bf.code tp with
      | nil => rfl
      | cons v vs =>
        simp only [closeFile]
        split_ifs <;> rfl

theorem saveIntegralUpTo_writable (myPid : Nat) (integrate : Integrator) (bf : BoundaryFlux)
    (flux : Bool) (time : Nat → Double) (n : Nat) (w : World) :
    (saveIntegralUpTo myPid integrate bf flux time n w).writable = w.writable := by
  induction n with
  | zero => rfl
  | succ n ih =>
    show (saveIntegral myPid integrate bf (stepAt time (n + 1)) flux
      (saveIntegralUpTo myPid integrate bf flux time n w)).2.writable = _
    rw [saveIntegral_writable, ih]

theorem reportedSteps_succ (S : Int) (n : Nat) :
    reportedSteps S (n + 1) =
      reportedSteps S n ++ (if ((n : Int)) % S = 0 then [n + 1] else []) := by
  unfold reportedSteps
  rw [List.range'_1_concat, List.filter_append]
  congr 1
  by_cases h : (n : Int) % S = 0 <;> simp [List.filter, h, Nat.add_comm]

theorem dataRows_succ (S : Int) (time val : Nat → Double) (n : Nat) :
    dataRows S time val (n + 1) =
      dataRows S time val n ++
        (if ((n : Int)) % S = 0 then [Line.row (time (n + 1)) (val (n + 1))] else []) := by
  unfold dataRows
  rw [reportedSteps_succ, List.map_append]
  split_ifs <;> rfl

theorem saveIntegralUpTo_file (integrate : Integrator) (bf : BoundaryFlux) (flux : Bool)
    (time val : Nat → Double) (w : World)
    (hc : bf.code ≠ 0) (hS : 1 ≤ bf.timeIncr) (hset : bf.set ≠ "") (hfile : bf.file ≠ "")
    (hopen : w.writable bf.file = true) (n : Nat)
    (hint : ∀ s, 1 ≤ s → s ≤ n + 1 → ((s : Int) - 1) % bf.timeIncr = 0 →
      (integrate flux bf.code (stepAt time s)).head? = some (val s)) :
    (saveIntegralUpTo 0 integrate bf flux time (n + 1) w).files bf.file =
      some (header flux bf.code ++ dataRows bf.timeIncr time val (n + 1)) := by
  induction n with
  | zero =>
    have hd : due bf (stepAt time 1) :=
      (due_stepAt_iff bf time 1 hc hS hset (le_refl 1)).2 (by simp)
    have h1 := hint 1 (le_refl 1) (by omega) (by simp)
    cases hi : integrate flux bf.code (stepAt time 1) with
    | nil => rw [hi] at h1; simp at h1
    | cons v rest =>
      rw [hi] at h1
      simp only [List.head?_cons, Option.some.injEq] at h1
      show (saveIntegral 0 integrate bf (stepAt time 1) flux w).2.files bf.file = _
      rw [saveIntegral_file_of_due integrate bf (stepAt time 1) flux w v rest hd hfile hopen hi]
      simp [stepAt, openFile, dataRows, reportedSteps, h1]
  | succ n ih =>
    have ih1 := ih (fun s h1 h2 h3 => hint s h1 (by omega) h3)
    have hopen1 : (saveIntegralUpTo 0 integrate bf flux time (n + 1) w).writable bf.file
        = true := by
      rw [saveIntegralUpTo_writable]; exact hopen
    show (saveIntegral 0 integrate bf (stepAt time (n + 2)) flux
      (saveIntegralUpTo 0 integrate bf flux time (n + 1) w)).2.files bf.file = _
    rw [dataRows_succ]
    by_cases hm : ((n + 1 : Nat) : Int) % bf.timeIncr = 0
    · have hd : due bf (stepAt time (n + 2)) :=
        (due_stepAt_iff bf time (n + 2) hc hS hset (by omega)).2 (by
          have : ((n + 2 : Nat) : Int) - 1 = ((n + 1 : Nat) : Int) := by push_cast; ring
          rw [this]; exact hm)
      have h1 := hint (n + 2) (by omega) (le_refl _) (by
        have : ((n + 2 : Nat) : Int) - 1 = ((n + 1 : Nat) : Int) := by push_cast; ring
        rw [this]; exact hm)
      cases hi : integrate flux bf.code (stepAt time (n + 2)) with
      | nil => rw [hi] at h1; simp at h1
      | cons v rest =>
        rw [hi] at h1
        simp only [List.head?_cons, Option.some.injEq] at h1
        rw [saveIntegral_file_of_due integrate bf (stepAt time (n + 2)) flux _ v rest hd hfile
          hopen1 hi]
        have hne : ¬ ((stepAt time (n + 2)).step = 1) := by
          simp only [stepAt]; push_cast; omega
        simp only [openFile, hne, if_false, decide_False, Bool.false_eq_true, ih1,
          Option.getD_some, List.append_nil, if_pos hm, h1]
        simp [stepAt, List.append_assoc]
    · have hnd : ¬ due bf (stepAt time (n + 2)) := by
        intro hd
        apply hm
        have := hd.2.2.2.2
        simp only [stepAt] at this
        have e : ((n + 2 : Nat) : Int) - 1 = ((n + 1 : Nat) : Int) := by push_cast; ring
        rw [e] at this; exact this
      rw [saveIntegral_of_not_due 0 integrate bf _ flux _ hnd, if_neg hm, List.append_nil]
      exact ih1

/-- C2. On the coordinating partition (`myPid = 0`), for an enabled spec with a
destination file that can be opened for writing and stride `S ≥ 1`, and the
engine returning a non-empty integral (first entry `val s`) on each step the
spec is due: after `saveIntegral` has been called for the steps `1, ..., n` in
order (`n ≥ 1`), the destination holds the two header lines once, followed by
one data row for each step `s ≤ n` with `(s - 1) mod S = 0` in step order,
whatever the world (and so the destination) held before step 1. For `S = 2`
and `n = 4` these are the rows of steps 1 and 3. -/
theorem saveIntegral_report_content (integrate : Integrator) (bf : BoundaryFlux) (flux : Bool)
    (time val : Nat → Double) (w : World) (n : Nat)
    (hc : bf.code ≠ 0) (hS : 1 ≤ bf.timeIncr) (hset : bf.set ≠ "") (hfile : bf.file ≠ "")
    (hopen : w.writable bf.file = true) (hn : 1 ≤ n)
    (hint : ∀ s, 1 ≤ s → s ≤ n → ((s : Int) - 1) % bf.timeIncr = 0 →
      (integrate flux bf.code (stepAt time s)).head? = some (val s)) :
    (saveIntegralUpTo 0 integrate bf flux time n w).files bf.file =
      some ([Line.title flux bf.code, Line.columns flux] ++
        ((List.range' 1 n).filter (fun (s : Nat) => ((s : Int) - 1) % bf.timeIncr = 0)).map
          (fun s => Line.row (time s) (val s))) ∧
    (bf.timeIncr = 2 → n = 4 →
      (saveIntegralUpTo 0 integrate bf flux time n w).files bf.file =
        some [Line.title flux bf.code, Line.columns flux,
          Line.row (time 1) (val 1), Line.row (time 3) (val 3)]) := by
  obtain ⟨m, rfl⟩ : ∃ m, n = m + 1 := ⟨n - 1, by omega⟩
  have key := saveIntegralUpTo_file integrate bf flux time val w hc hS hset hfile hopen m hint
  refine ⟨key, ?_⟩
  intro h2 h4
  have hm : m = 3 := by omega
  subst hm
  rw [key, h2]
  simp [header, dataRows, reportedSteps, List.range', List.filter]

/-! ## Solution history: properties -/

theorem shiftLoop_length (n : Nat) (t : Vectors) : (shiftLoop n t).length = t.length := by
  induction n generalizing t with
  | zero => rfl
  | succ n ih =>
    unfold shiftLoop
    rw [ih]
    cases t[n]? <;> simp

theorem shiftLoop_getElem? (n : Nat) (t : Vectors) (hn : n < t.length) (j : Nat) :
    (shiftLoop n t)[j]? = if 0 < j ∧ j ≤ n then t[j - 1]? else t[j]? := by
  induction n generalizing t with
  | zero =>
    have h : ¬ (0 < j ∧ j ≤ 0) := by omega
    rw [if_neg h]
    rfl
  | succ n ih =>
    unfold shiftLoop
    have hlt : n < t.length := by omega
    rw [List.getElem?_eq_getElem hlt]
    simp only []
    rw [ih _ (by simpa using hlt)]
    by_cases h1 : 0 < j ∧ j ≤ n
    · have h2 : 0 < j ∧ j ≤ n + 1 := ⟨h1.1, by omega⟩
      rw [if_pos h1, if_pos h2, List.getElem?_set]
      have : ¬ (n + 1 = j - 1) := by omega
      rw [if_neg this]
    · rw [if_neg h1, List.getElem?_set]
      by_cases h3 : n + 1 = j
      · subst h3
        simp [hn, List.getElem?_eq_getElem hlt]
      · have h4 : ¬ (0 < j ∧ j ≤ n + 1) := by omega
        rw [if_neg h3, if_neg h4]

theorem toInt_pred (N : Nat) (h1 : 1 ≤ N) (h2 : N ≤ 2 ^ 31) :
    (toInt ((N + 2 ^ 64 - 1) % 2 ^ 64)).toNat = N - 1 := by
  have e : (N + 2 ^ 64 - 1) % 2 ^ 64 = N - 1 := by omega
  rw [e]
  unfold toInt
  have e2 : (N - 1) % 2 ^ 32 = N - 1 := by omega
  rw [e2, if_pos (by omega)]
  simp

theorem advanceStep_nil : advanceStep [] = (true, []) := by
  simp [advanceStep, shiftLoop, toInt]

theorem advanceStep_eq (t : Vectors) (h1 : 1 ≤ t.length) (h2 : t.length ≤ 2 ^ 31) :
    advanceStep t = (true, shiftLoop (t.length - 1) t) := by
  unfold advanceStep
  simp only []
  rw [toInt_pred _ h1 h2]

/-- C3. For a solution history of `N` vectors (`N` within the range of `int`),
`advanceStep` succeeds and returns a history of the same length `N` in which
entry `k+1` is the entry formerly at index `k` for every `k ≤ N-2`, and entry 0
is left as it was; every entry of the result comes from an index `≤ N-2` of the
old history, so the entry formerly at index `N-1` is not retained in any slot.
For `N ≤ 1` the history is returned unchanged. -/
theorem advanceStep_shift (temperature : Vectors) (hN : temperature.length ≤ 2 ^ 31) :
    (advanceStep temperature).1 = true ∧
    (advanceStep temperature).2.length = temperature.length ∧
    (∀ k, k + 1 < temperature.length →
      (advanceStep temperature).2[k + 1]? = temperature[k]?) ∧
    (advanceStep temperature).2[0]? = temperature[0]? ∧
    (2 ≤ temperature.length → ∀ j, j < temperature.length →
      ∃ k, k + 2 ≤ temperature.length ∧ (advanceStep temperature).2[j]? = temperature[k]?) ∧
    (temperature.length ≤ 1 → (advanceStep temperature).2 = temperature) := by
  rcases Nat.eq_zero_or_pos temperature.length with h0 | hpos
  · have : temperature = [] := List.length_eq_zero.mp h0
    subst this
    simp [advanceStep_nil]
  · rw [advanceStep_eq temperature hpos hN]
    have hlt : temperature.length - 1 < temperature.length := by omega
    refine ⟨rfl, shiftLoop_length _ _, ?_, ?_, ?_, ?_⟩
    · intro k hk
      rw [shiftLoop_getElem? _ _ hlt, if_pos ⟨by omega, by omega⟩]
      simp
    · rw [shiftLoop_getElem? _ _ hlt, if_neg (by omega)]
    · intro h2 j hj
      rw [shiftLoop_getElem? _ _ hlt]
      by_cases hc : 0 < j ∧ j ≤ temperature.length - 1
      · exact ⟨j - 1, by omega, by rw [if_pos hc]⟩
      · refine ⟨0, by omega, ?_⟩
        rw [if_neg hc]
        have : j = 0 := by omega
        rw [this]
    · intro h1
      have : temperature.length - 1 = 0 := by omega
      rw [this]
      rfl

theorem advanceStep_pair (x y : Vector) : advanceStep [x, y] = (true, [x, x]) := by
  rw [advanceStep_eq [x, y] (by simp) (by simp)]
  rfl

theorem advanceStep_single (x : Vector) : advanceStep [x] = (true, [x]) := by
  rw [advanceStep_eq [x] (by simp) (by simp)]
  rfl

theorem timeStep_of_ok (E : Solver) (tp : TimeStep) (t : Vectors) (u : Vector)
    (ha : E.assembleSystem tp (advanceStep t).2 = true)
    (hs : E.solveSystem tp (advanceStep t).2 = some u) :
    timeStep E tp t = some ((advanceStep t).2.set 0 u) := by
  unfold timeStep solveStep
  simp [ha, hs]

theorem runSteps_succ_pair (E : Solver) (time : Nat → Double) (temperature : Vectors)
    (hok : ∀ tp t, E.assembleSystem tp t = true ∧ (E.solveSystem tp t).isSome = true)
    (n : Nat) (x y : Vector) (h : runSteps E time n temperature = some [x, y]) :
    ∃ u, convergedAt E time temperature (n + 1) = some u ∧
      runSteps E time (n + 1) temperature = some [u, x] := by
  obtain ⟨u, hu⟩ := Option.isSome_iff_exists.mp (hok (stepAt time (n + 1)) [x, x]).2
  refine ⟨u, ?_, ?_⟩
  · simp [convergedAt, h, advanceStep_pair, hu]
  · have ha := (hok (stepAt time (n + 1)) (advanceStep [x, y]).2).1
    have hs : E.solveSystem (stepAt time (n + 1)) (advanceStep [x, y]).2 = some u := by
      rw [advanceStep_pair]; exact hu
    simp only [runSteps, h, Option.bind_eq_bind, Option.some_bind]
    rw [timeStep_of_ok E _ _ u ha hs, advanceStep_pair]
    rfl

theorem runSteps_succ_single (E : Solver) (time : Nat → Double) (temperature : Vectors)
    (hok : ∀ tp t, E.assembleSystem tp t = true ∧ (E.solveSystem tp t).isSome = true)
    (n : Nat) (x : Vector) (h : runSteps E time n temperature = some [x]) :
    ∃ u, convergedAt E time temperature (n + 1) = some u ∧
      runSteps E time (n + 1) temperature = some [u] := by
  obtain ⟨u, hu⟩ := Option.isSome_iff_exists.mp (hok (stepAt time (n + 1)) [x]).2
  refine ⟨u, ?_, ?_⟩
  · simp [convergedAt, h, advanceStep_single, hu]
  · have ha := (hok (stepAt time (n + 1)) (advanceStep [x]).2).1
    have hs : E.solveSystem (stepAt time (n + 1)) (advanceStep [x]).2 = some u := by
      rw [advanceStep_single]; exact hu
    simp only [runSteps, h, Option.bind_eq_bind, Option.some_bind]
    rw [timeStep_of_ok E _ _ u ha hs, advanceStep_single]
    rfl

theorem runSteps_pair_head (E : Solver) (time : Nat → Double) (temperature : Vectors)
    (hok : ∀ tp t, E.assembleSystem tp t = true ∧ (E.solveSystem tp t).isSome = true)
    (hlen : temperature.length = 2) (n : Nat) :
    ∃ a y, convergedAt E time temperature (n + 1) = some a ∧
      runSteps E time (n + 1) temperature = some [a, y] := by
  induction n with
  | zero =>
    match temperature, hlen with
    | [x, y], _ =>
      obtain ⟨u, h1, h2⟩ := runSteps_succ_pair E time [x, y] hok 0 x y rfl
      exact ⟨u, x, h1, h2⟩
  | succ n ih =>
    obtain ⟨a, y, _, h2⟩ := ih
    obtain ⟨u, h3, h4⟩ := runSteps_succ_pair E time temperature hok (n + 1) a y h2
    exact ⟨u, a, h3, h4⟩

theorem runSteps_single_head (E : Solver) (time : Nat → Double) (temperature : Vectors)
    (hok : ∀ tp t, E.assembleSystem tp t = true ∧ (E.solveSystem tp t).isSome = true)
    (hlen : temperature.length = 1) (n : Nat) :
    ∃ a, convergedAt E time temperature (n + 1) = some a ∧
      runSteps E time (n + 1) temperature = some [a] := by
  induction n with
  | zero =>
    match temperature, hlen with
    | [x], _ => exact runSteps_succ_single E time [x] hok 0 x rfl
  | succ n ih =>
    obtain ⟨a, _, h2⟩ := ih
    exact runSteps_succ_single E time temperature hok (n + 1) a h2

/-- C4. With every assembly and solve succeeding, each time step being
`advanceStep` followed by `solveStep`: for a history of 2 vectors (second
order) and every `n ≥ 2`, the `n` steps all succeed and leave the history
`[a, b]` with `a` the converged solution of step `n` and `b` the converged
solution of step `n-1`; in particular after 3 steps entry 1 is the solution of
step 2. For a history of 1 vector (first order) and every `n ≥ 1` the history
left is `[a]` with `a` the converged solution of step `n`. -/
theorem history_after_steps (E : Solver) (time : Nat → Double) (temperature : Vectors)
    (hok : ∀ tp t, E.assembleSystem tp t = true ∧ (E.solveSystem tp t).isSome = true) :
    (temperature.length = 2 → ∀ n, 2 ≤ n →
      ∃ a b, convergedAt E time temperature n = some a ∧
        convergedAt E time temperature (n - 1) = some b ∧
        runSteps E time n temperature = some [a, b]) ∧
    (temperature.length = 2 →
      ∃ t, runSteps E time 3 temperature = some t ∧
        t[1]? = convergedAt E time temperature 2 ∧ t[0]? = convergedAt E time temperature 3) ∧
    (temperature.length = 1 → ∀ n, 1 ≤ n →
      ∃ a, convergedAt E time temperature n = some a ∧
        runSteps E time n temperature = some [a]) := by
  have h2 : temperature.length = 2 → ∀ n, 2 ≤ n →
      ∃ a b, convergedAt E time temperature n = some a ∧
        convergedAt E time temperature (n - 1) = some b ∧
        runSteps E time n temperature = some [a, b] := by
    intro hlen n hn
    obtain ⟨m, rfl⟩ : ∃ m, n = m + 2 := ⟨n - 2, by omega⟩
    obtain ⟨b, y, hb, hr⟩ := runSteps_pair_head E time temperature hok hlen m
    obtain ⟨a, ha, hr2⟩ := runSteps_succ_pair E time temperature hok (m + 1) b y hr
    exact ⟨a, b, ha, hb, hr2⟩
  refine ⟨h2, ?_, ?_⟩
  · intro hlen
    obtain ⟨a, b, ha, hb, hr⟩ := h2 hlen 3 (by omega)
    exact ⟨[a, b], hr, by simpa using hb.symm, by simpa using ha.symm⟩
  · intro hlen n hn
    obtain ⟨m, rfl⟩ : ∃ m, n = m + 1 := ⟨n - 1, by omega⟩
    exact runSteps_single_head E time temperature hok hlen m

/-! ## Materials and Neumann fluxes: properties -/

theorem initMaterial_index (K i : Nat) (h1 : 1 ≤ K) (h2 : K < 2 ^ 64) :
    (if i ≥ K then (K + 2 ^ 64 - 1) % 2 ^ 64 else i) = min i (K - 1) := by
  split_ifs with h
  · omega
  · omega

/-- C5. For a registry of `K ≥ 1` materials and every property index `i`,
`initMaterial i` succeeds and binds the material at position `min i (K-1)` to
both the primary integrand and the weak Dirichlet integrand, leaving the rest of
the simulator as it was; hence for `i ≥ K-1` this is the last registered
material and for `i < K` the material at position `i`. -/
theorem initMaterial_clamps (sim : Sim) (i : Nat)
    (hK : 1 ≤ sim.mVec.length) (hsize : sim.mVec.length < 2 ^ 64) :
    ∃ m, sim.mVec[min i (sim.mVec.length - 1)]? = some m ∧
      initMaterial sim i =
        Except.ok (true, { sim with he := { sim.he with material := some m },
                                    wdc := { sim.wdc with material := some m } }) ∧
      (sim.mVec.length - 1 ≤ i → sim.mVec.getLast? = some m) ∧
      (i < sim.mVec.length → sim.mVec[i]? = some m) := by
  have hlt : min i (sim.mVec.length - 1) < sim.mVec.length := by omega
  refine ⟨sim.mVec[min i (sim.mVec.length - 1)], List.getElem?_eq_getElem hlt, ?_, ?_, ?_⟩
  · unfold initMaterial
    simp only []
    rw [initMaterial_index _ i hK hsize, List.getElem?_eq_getElem hlt]
  · intro hi
    rw [List.getLast?_eq_getElem?, ← List.getElem?_eq_getElem hlt]
    congr 1
    omega
  · intro hi
    rw [← List.getElem?_eq_getElem hlt]
    congr 1
    omega

/-- C6. With an empty material registry `initMaterial` does not report failure:
for every property index the clamp wraps around to `2^64 - 1` and the registry
is read at that index, outside the (empty) vector. -/
theorem initMaterial_empty_registry (sim : Sim) (i : Nat) :
    initMaterial { sim with mVec := [] } i = Except.error (2 ^ 64 - 1) := by
  simp [initMaterial]

/-- The general form of the mismatch behind C7: the `anasol` branch of `parse`
files the secondary solution under `myVectors`, while `initNeumann` searches
`myScalars`; with nothing registered there for the code, `initNeumann` fails. -/
theorem initNeumann_after_anasol (B : Base) (sim : Sim) (c : Nat) (sol : AnaSol) (g : VecFunc)
    (hc : 0 < c) (hsol : sim.mySol = none) (hg : sol.scalarSecSol = some g)
    (hnone : sim.myScalars.lookup (toInt c) = none) :
    (parse B [Child.anasol (some (c : Int)) sol] sim).2.myVectors.lookup (c : Int) = some g ∧
    initNeumann (parse B [Child.anasol (some (c : Int)) sol] sim).2 c =
      (false, (parse B [Child.anasol (some (c : Int)) sol] sim).2) := by
  have hpos : (c : Int) > 0 := by exact_mod_cast hc
  simp [parse, parseChild, hsol, hg, hpos, mapSet, initNeumann, hnone, List.lookup]

/-- C7. The simulator with one unclassified property of code 5 parses an
`anasol` element with `code=5` whose solution has a secondary field (handle 1):
property 5 is then classified Neumann and the field is filed under code 5 in
`myVectors`, but `myScalars` has no entry for 5, so `initNeumann 5` fails and
installs no flux on either integrand. -/
theorem anasol_flux_not_installed (B : Base) :
    (parse B [Child.anasol (some 5) ⟨some ⟨1⟩⟩]
        { myProps := [⟨PropertyType.UNDEFINED, 5⟩] }).2.myProps
      = [⟨PropertyType.NEUMANN, 5⟩] ∧
    (parse B [Child.anasol (some 5) ⟨some ⟨1⟩⟩]
        { myProps := [⟨PropertyType.UNDEFINED, 5⟩] }).2.myVectors.lookup 5 = some ⟨1⟩ ∧
    (parse B [Child.anasol (some 5) ⟨some ⟨1⟩⟩]
        { myProps := [⟨PropertyType.UNDEFINED, 5⟩] }).2.myScalars.lookup 5 = none ∧
    (initNeumann (parse B [Child.anasol (some 5) ⟨some ⟨1⟩⟩]
        { myProps := [⟨PropertyType.UNDEFINED, 5⟩] }).2 5).1 = false ∧
    (initNeumann (parse B [Child.anasol (some 5) ⟨some ⟨1⟩⟩]
        { myProps := [⟨PropertyType.UNDEFINED, 5⟩] }).2 5).2.he.flux = none ∧
    (initNeumann (parse B [Child.anasol (some 5) ⟨some ⟨1⟩⟩]
        { myProps := [⟨PropertyType.UNDEFINED, 5⟩] }).2 5).2.wdc.flux = none := by
  refine ⟨?_, ?_, ?_, ?_, ?_, ?_⟩ <;>
    simp [parse, parseChild, setPropertyType, mapSet, initNeumann, toInt, List.lookup]

/-! ## Parsing of boundary quantities: properties -/

theorem parseQuantity_of_set (B : Base) (q : QuantityElem) (n : Nat) (h : q.set ≠ "") :
    parseQuantity B q n =
      { file := q.file, set := q.set, timeIncr := q.stride.getD 1,
        code := B.getUniquePropertyCode q.set ((n + 1) * 1000 % 2 ^ 64) } := by
  simp [parseQuantity, h]

theorem parseQuantity_of_no_set (B : Base) (q : QuantityElem) (n : Nat) (h : q.set = "") :
    parseQuantity B q n =
      { file := q.file, set := "", timeIncr := q.stride.getD 1, code := q.code.getD 0 } := by
  simp [parseQuantity, h]

theorem parse_append_quantity (B : Base) (sim : Sim) (cs : List Child) (q : QuantityElem) :
    (parse B (cs ++ [Child.quantity q]) sim).2 =
      parseChild B (parse B cs sim).2 (Child.quantity q) := by
  simp [parse, List.foldl_append]

/-- C8. A sequence of `heatflux`/`storedenergy` elements with non-empty set
names is parsed from any simulator state, the lists small enough for every
base `1000 * (c + 1)` to stay below `2^31`, the range of the `int` the code is
kept in: the specs are appended to the list of their kind in declaration order;
the code of each is what the code generator returns for the base
`1000 * (c + 1)`, `c` being the number of specs already in the list of that
kind; and with a generator that returns the requested base, or any generator
strictly increasing in the base over the bases below `2^31`, the codes of the
appended specs of each kind are strictly increasing, hence pairwise
different. -/
theorem parse_quantity_codes_increasing (B : Base) (sim : Sim) (qs : List QuantityElem)
    (hset : ∀ q ∈ qs, q.set ≠ "")
    (hsize : (sim.fluxes.length + sim.senergy.length + qs.length) * 1000 < 2 ^ 31)
    (hgen : ∀ s s' b b', b < b' → b' < 2 ^ 31 →
      B.getUniquePropertyCode s b < B.getUniquePropertyCode s' b') :
    ∃ newF newE : List BoundaryFlux,
      (parse B (qs.map Child.quantity) sim).2.fluxes = sim.fluxes ++ newF ∧
      (parse B (qs.map Child.quantity) sim).2.senergy = sim.senergy ++ newE ∧
      newF.map BoundaryFlux.set = (qs.filter fun q => q.heatflux).map QuantityElem.set ∧
      newE.map BoundaryFlux.set = (qs.filter fun q => !q.heatflux).map QuantityElem.set ∧
      (∀ j bf, newF[j]? = some bf →
        bf.code = B.getUniquePropertyCode bf.set (1000 * (sim.fluxes.length + j + 1))) ∧
      (∀ j bf, newE[j]? = some bf →
        bf.code = B.getUniquePropertyCode bf.set (1000 * (sim.senergy.length + j + 1))) ∧
      (newF.map BoundaryFlux.code).Pairwise (fun a b => a < b) ∧
      (newE.map BoundaryFlux.code).Pairwise (fun a b => a < b) := by
  induction qs using List.reverseRecOn with
  | nil =>
    exact ⟨[], [], by simp [parse], by simp [parse], by simp, by simp, by simp, by simp,
      by simp, by simp⟩
  | append_singleton qs q ih =>
    have hset1 : ∀ q ∈ qs, q.set ≠ "" := fun x hx => hset x (by simp [hx])
    have hq : q.set ≠ "" := hset q (by simp)
    have hlenqs : (qs ++ [q]).length = qs.length + 1 := by simp
    rw [hlenqs] at hsize
    obtain ⟨newF, newE, hF, hE, hsF, hsE, hcF, hcE, hpF, hpE⟩ := ih hset1 (by omega)
    have hlF : newF.length ≤ qs.length := by
      have := congrArg List.length hsF
      simp only [List.length_map] at this
      rw [this]; exact List.length_filter_le _ _
    have hlE : newE.length ≤ qs.length := by
      have := congrArg List.length hsE
      simp only [List.length_map] at this
      rw [this]; exact List.length_filter_le _ _
    rw [List.map_append, List.map_singleton, parse_append_quantity]
    by_cases hk : q.heatflux = true
    · have hbase : (sim.fluxes.length + newF.length + 1) * 1000 % 2 ^ 64 =
          1000 * (sim.fluxes.length + newF.length + 1) := by omega
      refine ⟨newF ++ [parseQuantity B q (sim.fluxes ++ newF).length], newE, ?_, ?_, ?_, ?_,
        ?_, hcE, ?_, hpE⟩
      · simp [parseChild, hk, hF, List.append_assoc]
      · simp [parseChild, hk, hE]
      · simp [List.filter_append, hk, hsF, parseQuantity_of_set B q _ hq]
      · simp [List.filter_append, hk, hsE]
      · intro j bf hj
        by_cases hjl : j < newF.length
        · rw [List.getElem?_append_left hjl] at hj
          exact hcF j bf hj
        · rw [List.getElem?_append_right (by omega)] at hj
          have hj0 : j - newF.length = 0 := by
            by_contra hne
            rw [List.getElem?_eq_none (by simp; omega)] at hj
            exact Option.noConfusion hj
          rw [hj0] at hj
          simp only [List.getElem?_cons_zero, Option.some.injEq] at hj
          subst hj
          have hje : j = newF.length := by omega
          subst hje
          rw [parseQuantity_of_set B q _ hq]
          simp only [List.length_append]
          rw [hbase]
      · rw [List.map_append, List.pairwise_append]
        refine ⟨hpF, by simp, ?_⟩
        intro a ha b hb
        simp only [List.map_cons, List.map_nil, List.mem_singleton] at hb
        subst hb
        obtain ⟨bf, hbf, rfl⟩ := List.mem_map.mp ha
        obtain ⟨j, hjlt, hjeq⟩ := List.getElem_of_mem hbf
        have hcode := hcF j bf (by rw [List.getElem?_eq_getElem hjlt, hjeq])
        rw [hcode, parseQuantity_of_set B q _ hq]
        simp only [List.length_append]
        rw [hbase]
        exact hgen _ _ _ _ (by omega) (by omega)
    · have hk2 : q.heatflux = false := by simpa using hk
      have hbase : (sim.senergy.length + newE.length + 1) * 1000 % 2 ^ 64 =
          1000 * (sim.senergy.length + newE.length + 1) := by omega
      refine ⟨newF, newE ++ [parseQuantity B q (sim.senergy ++ newE).length], ?_, ?_, ?_, ?_,
        hcF, ?_, hpF, ?_⟩
      · simp [parseChild, hk2, hF]
      · simp [parseChild, hk2, hE, List.append_assoc]
      · simp [List.filter_append, hk2, hsF]
      · simp [List.filter_append, hk2, hsE, parseQuantity_of_set B q _ hq]
      · intro j bf hj
        by_cases hjl : j < newE.length
        · rw [List.getElem?_append_left hjl] at hj
          exact hcE j bf hj
        · rw [List.getElem?_append_right (by omega)] at hj
          have hj0 : j - newE.length = 0 := by
            by_contra hne
            rw [List.getElem?_eq_none (by simp; omega)] at hj
            exact Option.noConfusion hj
          rw [hj0] at hj
          simp only [List.getElem?_cons_zero, Option.some.injEq] at hj
          subst hj
          have hje : j = newE.length := by omega
          subst hje
          rw [parseQuantity_of_set B q _ hq]
          simp only [List.length_append]
          rw [hbase]
      · rw [List.map_append, List.pairwise_append]
        refine ⟨hpE, by simp, ?_⟩
        intro a ha b hb
        simp only [List.map_cons, List.map_nil, List.mem_singleton] at hb
        subst hb
        obtain ⟨bf, hbf, rfl⟩ := List.mem_map.mp ha
        obtain ⟨j, hjlt, hjeq⟩ := List.getElem_of_mem hbf
        have hcode := hcE j bf (by rw [List.getElem?_eq_getElem hjlt, hjeq])
        rw [hcode, parseQuantity_of_set B q _ hq]
        simp only [List.length_append]
        rw [hbase]
        exact hgen _ _ _ _ (by omega) (by omega)

/-- C9 (as amended). For every `heatflux` or `storedenergy` element, one spec
is appended to the list of its kind and the other list is left alone; when the
set name is empty the code of the spec is the explicit `code` attribute (0 when
none is given); when a set name is given the code is the one generated from the
set name for the base `1000 * (c + 1)`, whatever the `code` attribute says. -/
theorem quantity_code_resolution (B : Base) (sim : Sim) (q : QuantityElem) :
    ∃ bf : BoundaryFlux,
      (parse B [Child.quantity q] sim).2.fluxes =
        (if q.heatflux then sim.fluxes ++ [bf] else sim.fluxes) ∧
      (parse B [Child.quantity q] sim).2.senergy =
        (if q.heatflux then sim.senergy else sim.senergy ++ [bf]) ∧
      bf.set = q.set ∧
      (q.set = "" → bf.code = q.code.getD 0) ∧
      (q.set ≠ "" → bf.code = B.getUniquePropertyCode q.set
        (((if q.heatflux then sim.fluxes.length else sim.senergy.length) + 1) * 1000
          % 2 ^ 64)) ∧
      (q.set ≠ "" → ∀ c, (parse B [Child.quantity { q with code := c }] sim).2 =
        (parse B [Child.quantity q] sim).2) := by
  refine ⟨parseQuantity B q (if q.heatflux then sim.fluxes.length else sim.senergy.length),
    ?_, ?_, ?_, ?_, ?_, ?_⟩
  · cases h : q.heatflux <;> simp [parse, parseChild, h]
  · cases h : q.heatflux <;> simp [parse, parseChild, h]
  · by_cases h : q.set = ""
    · rw [parseQuantity_of_no_set B q _ h, h]
    · rw [parseQuantity_of_set B q _ h]
  · intro h
    rw [parseQuantity_of_no_set B q _ h]
  · intro h
    rw [parseQuantity_of_set B q _ h]
  · intro h c
    have h2 : ∀ n, parseQuantity B { q with code := c } n = parseQuantity B q n := by
      intro n
      simp [parseQuantity, h]
    simp only [parse, List.foldl, parseChild, h2]

/-- C9 refuted as stated: a `heatflux` element carrying both the set `Top` and
the explicit code 7, parsed by a fresh simulator with the code generator of the
spec, yields a spec with code 1000, not 7. -/
theorem explicit_code_dropped_when_set_given :
    (parse specBase [Child.quantity { heatflux := true, set := "Top", code := some 7 }]
        {}).2.fluxes = [{ set := "Top", code := 1000 }] ∧
    ((parse specBase [Child.quantity { heatflux := true, set := "Top", code := some 7 }]
        {}).2.fluxes.map BoundaryFlux.code) ≠ [7] := by
  constructor
  · simp [parse, parseChild, parseQuantity, specBase, specUniquePropertyCode]
  · simp [parse, parseChild, parseQuantity, specBase, specUniquePropertyCode]

/-! ## Set-up and exit code: properties -/

/-- C10 (as amended). `setup` yields 2 for a failed read, 3 for a failed
preprocess after a successful read and 0 otherwise; `runSimulator` returns 1
for every non-zero result of the configuration step, so a model-read failure
and a preprocessing failure both end the run with the same non-zero exit
code 1, also through `main`; the same holds for any non-zero value the
configuration step may return. -/
theorem setup_failures_exit_one (preprocess solverRead : Bool) (solveProblem : Int)
    (infile : String) :
    setup false preprocess = 2 ∧ setup true false = 3 ∧ setup true true = 0 ∧
    runSimulator (setup false preprocess) solverRead solveProblem = 1 ∧
    runSimulator (setup true false) solverRead solveProblem = 1 ∧
    main (some infile) (setup false preprocess) solverRead solveProblem = 1 ∧
    main (some infile) (setup true false) solverRead solveProblem = 1 ∧
    (∀ configure : Int, configure ≠ 0 →
      runSimulator configure solverRead solveProblem = 1) := by
  refine ⟨?_, ?_, ?_, ?_, ?_, ?_, ?_, ?_⟩
  · cases preprocess <;> simp [setup]
  · simp [setup]
  · simp [setup]
  · cases preprocess <;> cases solverRead <;> simp [setup, runSimulator]
  · cases solverRead <;> simp [setup, runSimulator]
  · cases preprocess <;> cases solverRead <;> simp [setup, runSimulator, main]
  · cases solverRead <;> simp [setup, runSimulator, main]
  · intro configure h
    simp [runSimulator, h]

/-- C10 refuted as stated: with everything else succeeding, a failed model read
(`setup` = 2) and a failed preprocess (`setup` = 3) give the same exit code. -/
theorem setup_failures_same_exit_code :
    setup false true ≠ setup true false ∧
    runSimulator (setup false true) true 0 = runSimulator (setup true false) true 0 ∧
    main (some "model.xinp") (setup false true) true 0 =
      main (some "model.xinp") (setup true false) true 0 := by
  simp [setup, runSimulator, main]

/-! ## Coupling of integrands: properties -/

theorem bindings_append_entry (m : IntegrandMap) (k k' : Int) (v : IntegrandRef) :
    bindings (m ++ [(k, v)]) k' = bindings m k' ++ (if k = k' then [v] else []) := by
  unfold bindings
  rw [List.filter_append, List.map_append]
  by_cases h : k = k' <;> simp [List.filter, h]

theorem hasKey_eq_false_iff (m : IntegrandMap) (k : Int) :
    hasKey m k = false ↔ bindings m k = [] := by
  unfold hasKey bindings
  induction m with
  | nil => simp
  | cons e m ih =>
    by_cases h : e.1 = k
    · simp [List.filter, h]
    · simp only [List.any_cons, h, decide_False, Bool.false_or, List.filter, List.map]
      exact ih

theorem bindings_coupleStep (multi : Bool) (m : IntegrandMap) (p : Property) (k : Int) :
    bindings (coupleStep multi m p) k =
      if bindings m k = [] ∧ isGenericNeumannOrRobin p = true ∧ toInt p.pindx = k
      then [IntegrandRef.wdc] else bindings m k := by
  unfold coupleStep
  by_cases hr : isGenericNeumannOrRobin p = true
  · rw [if_pos hr]
    by_cases hk : hasKey m (toInt p.pindx) = false
    · have hb := (hasKey_eq_false_iff m _).1 hk
      rw [if_pos hk]
      unfold mapInsert
      rw [if_neg (by simp [hk]), bindings_append_entry]
      by_cases hkk : toInt p.pindx = k
      · subst hkk
        simp [hb, hr]
      · simp [hkk]
    · rw [if_neg hk]
      have hb : ¬ bindings m (toInt p.pindx) = [] := fun h =>
        hk ((hasKey_eq_false_iff m _).2 h)
      have : ¬ (bindings m k = [] ∧ isGenericNeumannOrRobin p = true ∧ toInt p.pindx = k) := by
        rintro ⟨h1, _, h3⟩
        subst h3
        exact hb h1
      rw [if_neg this]
  · rw [if_neg hr]
    have : ¬ (bindings m k = [] ∧ isGenericNeumannOrRobin p = true ∧ toInt p.pindx = k) := by
      rintro ⟨_, h2, _⟩
      exact hr h2
    rw [if_neg this]

theorem bindings_coupleLoop (multi : Bool) (props : List Property) (m : IntegrandMap) (k : Int) :
    bindings (props.foldl (coupleStep multi) m) k =
      if bindings m k = [] ∧ coupled props k = true then [IntegrandRef.wdc]
      else bindings m k := by
  induction props generalizing m with
  | nil => simp [coupled]
  | cons p ps ih =>
    rw [List.foldl_cons, ih, bindings_coupleStep]
    by_cases hb : bindings m k = []
    · by_cases hp : isGenericNeumannOrRobin p = true ∧ toInt p.pindx = k
      · simp [hb, hp, coupled]
      · have hp2 : (isGenericNeumannOrRobin p && decide (toInt p.pindx = k)) = false := by
          by_cases h1 : isGenericNeumannOrRobin p = true
          · have : ¬ toInt p.pindx = k := fun h => hp ⟨h1, h⟩
            simp [this]
          · simp [h1]
        have hc : coupled (p :: ps) k = coupled ps k := by
          simp only [coupled, List.any_cons, hp2, Bool.false_or]
        have hn : ¬ (bindings m k = [] ∧ isGenericNeumannOrRobin p = true ∧ toInt p.pindx = k) :=
          fun h => hp h.2
        rw [if_neg hn, hc]
    · simp [hb]

theorem bindings_mapInsert_zero (multi : Bool) (m : IntegrandMap) (k : Int) (hk : k ≠ 0) :
    bindings (mapInsert multi m 0 IntegrandRef.he) k = bindings m k := by
  unfold mapInsert
  split_ifs
  · rfl
  · rw [bindings_append_entry, if_neg (fun h => hk h.symm), List.append_nil]

theorem bindings_mapInsert_zero_ne_nil (multi : Bool) (m : IntegrandMap) :
    bindings (mapInsert multi m 0 IntegrandRef.he) 0 ≠ [] := by
  unfold mapInsert
  split_ifs with h
  · intro hb
    have := (hasKey_eq_false_iff m 0).2 hb
    rw [h.2] at this
    exact Bool.noConfusion this
  · rw [bindings_append_entry]
    simp

theorem bindings_preprocessA (multi : Bool) (props : List Property) (m : IntegrandMap) (k : Int) :
    bindings (preprocessA multi props m) k =
      if bindings (mapInsert multi m 0 IntegrandRef.he) k = [] ∧ coupled props k = true
      then [IntegrandRef.wdc] else bindings (mapInsert multi m 0 IntegrandRef.he) k := by
  unfold preprocessA
  exact bindings_coupleLoop multi props _ k

theorem bindings_preprocessA_stable (multi : Bool) (props : List Property) (m : IntegrandMap)
    (k : Int) (h : bindings (preprocessA multi props m) k = []) : coupled props k = false := by
  rw [bindings_preprocessA] at h
  by_contra hc
  have hc2 : coupled props k = true := by simpa using hc
  by_cases hb : bindings (mapInsert multi m 0 IntegrandRef.he) k = []
  · rw [if_pos ⟨hb, hc2⟩] at h
    exact List.noConfusion h
  · rw [if_neg (fun hh => hb hh.1)] at h
    exact hb h

/-- C11 (as amended). Whatever the kind of the container, the property list
and the initial map: for every key other than 0 a second run of `preprocessA`
leaves the bindings of the key as the first run left them; every property
classified generic Neumann or Robin whose key is not 0 and had no binding
before has exactly one binding afterwards, to the weak Dirichlet integrand,
however many properties share the key; every key other than 0 that had
bindings keeps them unchanged, and a key other than 0 without bindings and
without such a property stays without. Key 0 is bound after the run, to the
problem integrand alone when it had no binding before. When the container has
unique keys the second run changes the bindings of no key at all. -/
theorem preprocessA_couples_once (multi : Bool) (props : List Property) (m : IntegrandMap) :
    (∀ k, k ≠ 0 →
      bindings (preprocessA multi props (preprocessA multi props m)) k =
        bindings (preprocessA multi props m) k) ∧
    (∀ p ∈ props, isGenericNeumannOrRobin p = true → toInt p.pindx ≠ 0 →
      bindings m (toInt p.pindx) = [] →
      bindings (preprocessA multi props m) (toInt p.pindx) = [IntegrandRef.wdc]) ∧
    (∀ k, k ≠ 0 → bindings m k ≠ [] →
      bindings (preprocessA multi props m) k = bindings m k) ∧
    (∀ k, k ≠ 0 → bindings m k = [] → coupled props k = false →
      bindings (preprocessA multi props m) k = []) ∧
    bindings (preprocessA multi props m) 0 ≠ [] ∧
    (bindings m 0 = [] → bindings (preprocessA multi props m) 0 = [IntegrandRef.he]) ∧
    (multi = false → ∀ k,
      bindings (preprocessA multi props (preprocessA multi props m)) k =
        bindings (preprocessA multi props m) k) := by
  have hzero : bindings (preprocessA multi props m) 0 =
      bindings (mapInsert multi m 0 IntegrandRef.he) 0 := by
    rw [bindings_preprocessA,
      if_neg (fun h => bindings_mapInsert_zero_ne_nil multi m h.1)]
  refine ⟨?_, ?_, ?_, ?_, ?_, ?_, ?_⟩
  · intro k hk
    rw [bindings_preprocessA multi props (preprocessA multi props m) k,
      bindings_mapInsert_zero multi _ k hk]
    by_cases hb : bindings (preprocessA multi props m) k = []
    · have hc := bindings_preprocessA_stable multi props m k hb
      simp [hc]
    · rw [if_neg (fun h => hb h.1)]
  · intro p hp hr hk hb
    have hc : coupled props (toInt p.pindx) = true := by
      unfold coupled
      rw [List.any_eq_true]
      exact ⟨p, hp, by simp [hr]⟩
    rw [bindings_preprocessA, bindings_mapInsert_zero multi m _ hk, if_pos ⟨hb, hc⟩]
  · intro k hk hb
    rw [bindings_preprocessA, bindings_mapInsert_zero multi m k hk, if_neg (fun h => hb h.1)]
  · intro k hk hb hc
    rw [bindings_preprocessA, bindings_mapInsert_zero multi m k hk, hc]
    simp [hb]
  · rw [hzero]
    exact bindings_mapInsert_zero_ne_nil multi m
  · intro hb
    rw [hzero]
    unfold mapInsert
    have hk := (hasKey_eq_false_iff m 0).2 hb
    rw [if_neg (by simp [hk]), bindings_append_entry, hb]
    simp
  · intro hmulti k
    have hne : bindings (preprocessA multi props m) 0 ≠ [] := by
      rw [hzero]
      exact bindings_mapInsert_zero_ne_nil multi m
    have hkey : hasKey (preprocessA multi props m) 0 = true := by
      by_contra hc
      exact hne ((hasKey_eq_false_iff _ 0).1 (by simpa using hc))
    have hins : mapInsert multi (preprocessA multi props m) 0 IntegrandRef.he =
        preprocessA multi props m := by
      unfold mapInsert
      rw [if_pos ⟨hmulti, hkey⟩]
    rw [bindings_preprocessA multi props (preprocessA multi props m) k, hins]
    by_cases hb : bindings (preprocessA multi props m) k = []
    · have hc := bindings_preprocessA_stable multi props m k hb
      simp [hc]
    · rw [if_neg (fun h => hb h.1)]

/-- C11 refuted as stated: with the single property of region index 0
classified Robin and an empty map, key 0 ends up bound to the problem
integrand and not to the weak Dirichlet integrand, for either kind of
container; and when the container accepts several entries per key, the second
run adds a second binding under key 0. -/
theorem preprocessA_key_zero :
    bindings (preprocessA true [⟨PropertyType.ROBIN, 0⟩] []) 0 = [IntegrandRef.he] ∧
    bindings (preprocessA false [⟨PropertyType.ROBIN, 0⟩] []) 0 = [IntegrandRef.he] ∧
    bindings (preprocessA true [⟨PropertyType.ROBIN, 0⟩]
      (preprocessA true [⟨PropertyType.ROBIN, 0⟩] [])) 0 =
        [IntegrandRef.he, IntegrandRef.he] := by
  refine ⟨by decide, by decide, by decide⟩

/-! ## Saving the results of a time step: properties -/

theorem saveIntegral_of_empty (myPid : Nat) (integrate : Integrator) (bf : BoundaryFlux)
    (tp : TimeStep) (flux : Bool) (w : World)
    (hd : due bf tp) (he : integrate flux bf.code tp = []) :
    saveIntegral myPid integrate bf tp flux w =
      (false, { w with calls := w.calls ++ [⟨flux, bf.code, tp⟩] }) := by
  obtain ⟨hc, hs, hn, hp, hm⟩ := hd
  unfold saveIntegral
  have h1 : ¬ (bf.code = 0 ∨ bf.timeIncr < 1 ∨ bf.set = "") := by
    push_neg; exact ⟨hc, by omega, hn⟩
  have h2 : ¬ (tp.step < 1 ∨ (tp.step - 1).tmod bf.timeIncr > 0) := by
    rw [tmod_pos_iff_emod_ne_zero (by omega) hs]
    push_neg; exact ⟨by omega, hm⟩
  rw [if_neg h1, if_neg h2, he]

theorem saveIntegral_sameOutput (myPid : Nat) (integrate : Integrator) (bf : BoundaryFlux)
    (tp : TimeStep) (flux : Bool) (w1 w2 : World) (h : sameOutput w1 w2) :
    (saveIntegral myPid integrate bf tp flux w1).1 =
      (saveIntegral myPid integrate bf tp flux w2).1 ∧
    sameOutput (saveIntegral myPid integrate bf tp flux w1).2
      (saveIntegral myPid integrate bf tp flux w2).2 := by
  obtain ⟨hf, hs, hl, hw⟩ := h
  unfold saveIntegral
  by_cases h1 : bf.code = 0 ∨ bf.timeIncr < 1 ∨ bf.set = ""
  · rw [if_pos h1, if_pos h1]
    exact ⟨rfl, hf, hs, hl, hw⟩
  · rw [if_neg h1, if_neg h1]
    by_cases h2 : tp.step < 1 ∨ (tp.step - 1).tmod bf.timeIncr > 0
    · rw [if_pos h2, if_pos h2]
      exact ⟨rfl, hf, hs, hl, hw⟩
    · rw [if_neg h2, if_neg h2]
      cases integrate flux bf.code tp with
      | nil => exact ⟨rfl, hf, hs, hl, hw⟩
      | cons v vs =>
        by_cases h3 : bf.file = ""
        · by_cases h4 : myPid = 0
          · simp [sameOutput, h3, h4, hf, hs, hl, hw]
          · simp [sameOutput, h3, h4, hf, hs, hl, hw]
        · by_cases h4 : myPid = 0
          · by_cases h5 : w2.writable bf.file = true
            · simp [sameOutput, h3, h4, h5, hf, hs, hl, hw, closeFile, openFile]
            · simp [sameOutput, h3, h4, h5, hf, hs, hl, hw]
          · simp [sameOutput, h3, h4, hf, hs, hl, hw]

theorem saveIntegrals_sameOutput (myPid : Nat) (integrate : Integrator)
    (specs : List BoundaryFlux) (tp : TimeStep) (flux : Bool) (ok1 ok2 : Bool) (w1 w2 : World)
    (h : sameOutput w1 w2) :
    sameOutput (saveIntegrals myPid integrate specs tp flux (ok1, w1)).2
      (saveIntegrals myPid integrate specs tp flux (ok2, w2)).2 := by
  induction specs generalizing ok1 ok2 w1 w2 with
  | nil => exact h
  | cons bf rest ih =>
    unfold saveIntegrals
    rw [List.foldl_cons, List.foldl_cons]
    exact ih _ _ _ _ (saveIntegral_sameOutput myPid integrate bf tp flux w1 w2 h).2

theorem saveIntegrals_false (myPid : Nat) (integrate : Integrator)
    (specs : List BoundaryFlux) (tp : TimeStep) (flux : Bool) (w : World) :
    (saveIntegrals myPid integrate specs tp flux (false, w)).1 = false := by
  induction specs generalizing w with
  | nil => rfl
  | cons bf rest ih =>
    unfold saveIntegrals
    rw [List.foldl_cons]
    simp only [Bool.false_and]
    exact ih _

theorem saveIntegrals_append (myPid : Nat) (integrate : Integrator)
    (l1 l2 : List BoundaryFlux) (tp : TimeStep) (flux : Bool) (acc : Bool × World) :
    saveIntegrals myPid integrate (l1 ++ l2) tp flux acc =
      saveIntegrals myPid integrate l2 tp flux (saveIntegrals myPid integrate l1 tp flux acc) := by
  unfold saveIntegrals
  rw [List.foldl_append]

theorem saveIntegrals_cons (myPid : Nat) (integrate : Integrator) (bf : BoundaryFlux)
    (rest : List BoundaryFlux) (tp : TimeStep) (flux : Bool) (acc : Bool × World) :
    saveIntegrals myPid integrate (bf :: rest) tp flux acc =
      saveIntegrals myPid integrate rest tp flux
        ((acc.1 && (saveIntegral myPid integrate bf tp flux acc.2).1),
          (saveIntegral myPid integrate bf tp flux acc.2).2) := by
  unfold saveIntegrals
  rw [List.foldl_cons]

/-- The loop over a list holding a due spec with an empty integral: the flag
ends up false, and files and streams end up as without that spec. -/
theorem saveIntegrals_with_empty (myPid : Nat) (integrate : Integrator)
    (pre post : List BoundaryFlux) (bf : BoundaryFlux) (tp : TimeStep) (flux : Bool)
    (ok1 ok2 : Bool) (w1 w2 : World) (h : sameOutput w1 w2)
    (hd : due bf tp) (he : integrate flux bf.code tp = []) :
    (saveIntegrals myPid integrate (pre ++ bf :: post) tp flux (ok1, w1)).1 = false ∧
    sameOutput (saveIntegrals myPid integrate (pre ++ bf :: post) tp flux (ok1, w1)).2
      (saveIntegrals myPid integrate (pre ++ post) tp flux (ok2, w2)).2 := by
  rw [saveIntegrals_append, saveIntegrals_append, saveIntegrals_cons,
    saveIntegral_of_empty myPid integrate bf tp flux _ hd he]
  simp only [Bool.and_false]
  refine ⟨saveIntegrals_false myPid integrate post tp flux _, ?_⟩
  have hpre := saveIntegrals_sameOutput myPid integrate pre tp flux ok1 ok2 w1 w2 h
  have hmid : sameOutput
      { (saveIntegrals myPid integrate pre tp flux (ok1, w1)).2 with
        calls := (saveIntegrals myPid integrate pre tp flux (ok1, w1)).2.calls ++
          [⟨flux, bf.code, tp⟩] }
      (saveIntegrals myPid integrate pre tp flux (ok2, w2)).2 := hpre
  exact saveIntegrals_sameOutput myPid integrate post tp flux _ _ _ _ hmid

theorem saveStep_world (myPid : Nat) (integrate : Integrator) (W : Writer) (opt : SaveOptions)
    (sim : Sim) (tp : TimeStep) (out : StepOutput)
    (hdef : ¬ divisionUndefined tp.step opt.saveInc) :
    ∃ r, saveStep myPid integrate W opt sim tp out = some r ∧
      r.2.world =
        (saveIntegrals myPid integrate sim.senergy tp false
          (saveIntegrals myPid integrate sim.fluxes tp true (true, out.world))).2 := by
  unfold saveStep
  simp only [if_neg hdef]
  split_ifs
  · exact ⟨_, rfl, rfl⟩
  · exact ⟨_, rfl, rfl⟩
  · exact ⟨_, rfl, rfl⟩

theorem saveStep_of_failed (myPid : Nat) (integrate : Integrator) (W : Writer)
    (opt : SaveOptions) (sim : Sim) (tp : TimeStep) (out : StepOutput)
    (hdef : ¬ divisionUndefined tp.step opt.saveInc)
    (h : (saveIntegrals myPid integrate sim.senergy tp false
        (saveIntegrals myPid integrate sim.fluxes tp true (true, out.world))).1 = false) :
    saveStep myPid integrate W opt sim tp out =
      some (false, { out with
        world := (saveIntegrals myPid integrate sim.senergy tp false
          (saveIntegrals myPid integrate sim.fluxes tp true (true, out.world))).2,
        pointSamples := out.pointSamples ++ [tp] }) := by
  unfold saveStep
  simp only [if_neg hdef, h, Bool.false_and, or_true, if_true]

/-- C12 (as amended). When a spec of the flux list (`flux = true`) or of the
stored energy list is due on the step and the engine returns an empty integral
for it: `saveIntegral` returns failure for that spec and changes nothing but
the trace of engine calls (no file is opened, nothing is written); and with a
save increment other than 0, `saveStep` returns, having passed every other
spec to `saveIntegral` and requested the point samples, so that files and
streams end up exactly as they would without that spec; but `saveStep` returns
failure for the step and skips the field output. -/
theorem saveStep_empty_integral (myPid : Nat) (integrate : Integrator) (W : Writer)
    (opt : SaveOptions) (sim : Sim) (tp : TimeStep) (out : StepOutput) (flux : Bool)
    (pre post : List BoundaryFlux) (bf : BoundaryFlux)
    (hlist : specsOf sim flux = pre ++ bf :: post)
    (hd : due bf tp) (he : integrate flux bf.code tp = [])
    (hinc : opt.saveInc ≠ 0) :
    (∀ w, saveIntegral myPid integrate bf tp flux w =
      (false, { w with calls := w.calls ++ [⟨flux, bf.code, tp⟩] })) ∧
    ∃ r r', saveStep myPid integrate W opt sim tp out = some r ∧
      r.1 = false ∧
      r.2.pointSamples = out.pointSamples ++ [tp] ∧
      r.2.fieldWrites = out.fieldWrites ∧
      r.2.stepWrites = out.stepWrites ∧
      saveStep myPid integrate W opt (withSpecs sim flux (pre ++ post)) tp out = some r' ∧
      sameOutput r.2.world r'.2.world := by
  have hrefl : ∀ w : World, sameOutput w w := fun w => ⟨rfl, rfl, rfl, rfl⟩
  have hdef : ¬ divisionUndefined tp.step opt.saveInc := by
    unfold divisionUndefined
    have hstep : 1 ≤ tp.step := hd.2.2.2.1
    rintro (h | ⟨h, _⟩)
    · exact hinc h
    · rw [h] at hstep
      norm_num at hstep
  have hflag : (saveIntegrals myPid integrate sim.senergy tp false
      (saveIntegrals myPid integrate sim.fluxes tp true (true, out.world))).1 = false := by
    cases flux with
    | true =>
      have hl : sim.fluxes = pre ++ bf :: post := by simpa [specsOf] using hlist
      have h1 := (saveIntegrals_with_empty myPid integrate pre post bf tp true true true
        out.world out.world (hrefl _) hd he).1
      rw [← hl] at h1
      have h2 : saveIntegrals myPid integrate sim.fluxes tp true (true, out.world) =
          (false, (saveIntegrals myPid integrate sim.fluxes tp true (true, out.world)).2) :=
        Prod.ext h1 rfl
      rw [h2]
      exact saveIntegrals_false myPid integrate sim.senergy tp false _
    | false =>
      have hl : sim.senergy = pre ++ bf :: post := by simpa [specsOf] using hlist
      rw [hl]
      exact (saveIntegrals_with_empty myPid integrate pre post bf tp false _ true
        _ _ (hrefl _) hd he).1
  have hstep := saveStep_of_failed myPid integrate W opt sim tp out hdef hflag
  obtain ⟨r', hr', hw'⟩ :=
    saveStep_world myPid integrate W opt (withSpecs sim flux (pre ++ post)) tp out hdef
  refine ⟨fun w => saveIntegral_of_empty myPid integrate bf tp flux w hd he,
    _, r', hstep, rfl, rfl, rfl, rfl, hr', ?_⟩
  rw [hw']
  show sameOutput (saveIntegrals myPid integrate sim.senergy tp false
      (saveIntegrals myPid integrate sim.fluxes tp true (true, out.world))).2 _
  cases flux with
  | true =>
    have hl : sim.fluxes = pre ++ bf :: post := by simpa [specsOf] using hlist
    have h1 := (saveIntegrals_with_empty myPid integrate pre post bf tp true true true
      out.world out.world (hrefl _) hd he).2
    rw [hl]
    exact saveIntegrals_sameOutput myPid integrate sim.senergy tp false _ _ _ _ h1
  | false =>
    have hl : sim.senergy = pre ++ bf :: post := by simpa [specsOf] using hlist
    rw [hl]
    exact (saveIntegrals_with_empty myPid integrate pre post bf tp false _ _ _ _
      (hrefl _) hd he).2

/-- C12 refuted as stated: two flux specs on step 1 with save increment 1, the
engine returning an empty integral for code 1000 and the integral 5 for code
2000, every writer call succeeding: the report of the second spec is written
and nothing is written for the first, but `saveStep` returns failure for the
step and the field output is not written. -/
theorem saveStep_reports_failure :
    (saveStep 0 (fun _ code _ => if code = 1000 then [] else [5])
        ⟨fun _ => true, fun _ _ => 0, fun _ _ => true⟩ ⟨1, 0⟩
        { fluxes := [{ file := "a.dat", set := "A", code := 1000 },
                     { file := "b.dat", set := "B", code := 2000 }] }
        ⟨1, 0⟩ ⟨⟨fun _ => none, [], [], [], fun _ => true⟩, [], [], []⟩).map Prod.fst
      = some false ∧
    (saveStep 0 (fun _ code _ => if code = 1000 then [] else [5])
        ⟨fun _ => true, fun _ _ => 0, fun _ _ => true⟩ ⟨1, 0⟩
        { fluxes := [{ file := "a.dat", set := "A", code := 1000 },
                     { file := "b.dat", set := "B", code := 2000 }] }
        ⟨1, 0⟩ ⟨⟨fun _ => none, [], [], [], fun _ => true⟩, [], [], []⟩).map
        (fun r => r.2.world.files "b.dat") =
      some (some [Line.title true 2000, Line.columns true, Line.row 0 5]) ∧
    (saveStep 0 (fun _ code _ => if code = 1000 then [] else [5])
        ⟨fun _ => true, fun _ _ => 0, fun _ _ => true⟩ ⟨1, 0⟩
        { fluxes := [{ file := "a.dat", set := "A", code := 1000 },
                     { file := "b.dat", set := "B", code := 2000 }] }
        ⟨1, 0⟩ ⟨⟨fun _ => none, [], [], [], fun _ => true⟩, [], [], []⟩).map
        (fun r => r.2.world.files "a.dat") = some none ∧
    (saveStep 0 (fun _ code _ => if code = 1000 then [] else [5])
        ⟨fun _ => true, fun _ _ => 0, fun _ _ => true⟩ ⟨1, 0⟩
        { fluxes := [{ file := "a.dat", set := "A", code := 1000 },
                     { file := "b.dat", set := "B", code := 2000 }] }
        ⟨1, 0⟩ ⟨⟨fun _ => none, [], [], [], fun _ => true⟩, [], [], []⟩).map
        (fun r => r.2.fieldWrites) = some [] := by
  refine ⟨by decide, by decide, by decide, by decide⟩

/-! ## Instances on concrete inputs -/

/-- An instance of C1: a spec on set `Top` with stride 2 fires on step 1 and
does not fire on step 2. -/
theorem saveIntegral_fires_iff_due_witness :
    fired (fun _ _ _ => [5]) 0 { file := "q.dat", set := "Top", code := 1000, timeIncr := 2 }
      ⟨1, 0⟩ true ⟨fun _ => none, [], [], [], fun _ => true⟩ ∧
    ¬ fired (fun _ _ _ => [5]) 0 { file := "q.dat", set := "Top", code := 1000, timeIncr := 2 }
      ⟨2, 1⟩ true ⟨fun _ => none, [], [], [], fun _ => true⟩ :=
  ⟨(saveIntegral_fires_iff_due 0 (fun _ _ _ => [5])
      { file := "q.dat", set := "Top", code := 1000, timeIncr := 2 } ⟨1, 0⟩ true
      ⟨fun _ => none, [], [], [], fun _ => true⟩).2.2.1 (by decide) (by decide) (by decide) rfl,
   (saveIntegral_fires_iff_due 0 (fun _ _ _ => [5])
      { file := "q.dat", set := "Top", code := 1000, timeIncr := 2 } ⟨2, 1⟩ true
      ⟨fun _ => none, [], [], [], fun _ => true⟩).2.2.2 (by decide)⟩

/-- An instance of C2: stride 2, four steps, constant integral 5, a destination
that held a stray line before the run: the report holds the header and the
rows of steps 1 and 3. -/
theorem saveIntegral_report_content_witness :
    (saveIntegralUpTo 0 (fun _ _ _ => [5])
        { file := "q.dat", set := "Top", code := 1000, timeIncr := 2 } true
        (fun s => (s : Rat)) 4 ⟨fun _ => some [Line.blank], [], [], [], fun _ => true⟩).files "q.dat" =
      some [Line.title true 1000, Line.columns true, Line.row 1 5, Line.row 3 5] :=
  (saveIntegral_report_content (fun _ _ _ => [5])
    { file := "q.dat", set := "Top", code := 1000, timeIncr := 2 } true
    (fun s => (s : Rat)) (fun _ => 5) ⟨fun _ => some [Line.blank], [], [], [], fun _ => true⟩ 4
    (by decide) (by decide) (by decide) (by decide) rfl (by decide)
    (fun _ _ _ _ => rfl)).2 rfl rfl

/-- An instance of C3: a history of three vectors. -/
theorem advanceStep_shift_witness :
    (advanceStep [[1], [2], [3]]).2 = [[1], [1], [2]] ∧
    (advanceStep [[1], [2], [3]]).2[1]? = some [1] ∧
    (advanceStep [[1], [2], [3]]).2[2]? = some [2] :=
  ⟨by decide,
   (advanceStep_shift [[1], [2], [3]] (by simp)).2.2.1 0 (by simp),
   (advanceStep_shift [[1], [2], [3]] (by simp)).2.2.1 1 (by simp)⟩

/-- An instance of C4: an engine whose solution of a step is the time of the
step put in front of the previous solution; second order, three steps. -/
theorem history_after_steps_witness :
    ∃ t, runSteps ⟨fun _ _ => true, fun tp t => some (tp.t :: t.headD [])⟩
        (fun s => (s : Rat)) 3 [[], []] = some t ∧
      t[1]? = convergedAt ⟨fun _ _ => true, fun tp t => some (tp.t :: t.headD [])⟩
        (fun s => (s : Rat)) [[], []] 2 ∧
      t[0]? = convergedAt ⟨fun _ _ => true, fun tp t => some (tp.t :: t.headD [])⟩
        (fun s => (s : Rat)) [[], []] 3 :=
  (history_after_steps ⟨fun _ _ => true, fun tp t => some (tp.t :: t.headD [])⟩
    (fun s => (s : Rat)) [[], []] (fun _ _ => ⟨rfl, rfl⟩)).2.1 rfl

/-- An instance of C5: two materials, property index 7 is clamped to the last. -/
theorem initMaterial_clamps_witness :
    ∃ m, ([⟨10⟩, ⟨20⟩] : List Material)[min 7 1]? = some m ∧
      initMaterial { mVec := [⟨10⟩, ⟨20⟩] } 7 =
        Except.ok (true, { mVec := [⟨10⟩, ⟨20⟩], he := { material := some m },
                           wdc := { material := some m } }) ∧
      m = ⟨20⟩ := by
  obtain ⟨m, h1, h2, h3, _⟩ :=
    initMaterial_clamps { mVec := [⟨10⟩, ⟨20⟩] } 7 (by simp) (by simp)
  exact ⟨m, h1, h2, by simpa using (h3 (by simp)).symm⟩

/-- An instance of C8 with the code generator of the spec: two `heatflux`
elements around a `storedenergy` element get the codes 1000 and 2000 (flux)
and 1000 (stored energy). -/
theorem parse_quantity_codes_increasing_witness :
    ((parse specBase
        ([{ heatflux := true, set := "Top" }, { heatflux := false, set := "Body" },
          { heatflux := true, set := "Bottom" }].map Child.quantity) {}).2.fluxes.map
      BoundaryFlux.code).Pairwise (fun a b => a < b) ∧
    (parse specBase
        ([{ heatflux := true, set := "Top" }, { heatflux := false, set := "Body" },
          { heatflux := true, set := "Bottom" }].map Child.quantity) {}).2.fluxes.map
      BoundaryFlux.code = [1000, 2000] ∧
    (parse specBase
        ([{ heatflux := true, set := "Top" }, { heatflux := false, set := "Body" },
          { heatflux := true, set := "Bottom" }].map Child.quantity) {}).2.senergy.map
      BoundaryFlux.code = [1000] := by
  obtain ⟨newF, newE, hF, _, _, _, _, _, hpF, _⟩ :=
    parse_quantity_codes_increasing specBase {}
      [{ heatflux := true, set := "Top" }, { heatflux := false, set := "Body" },
        { heatflux := true, set := "Bottom" }]
      (by decide) (by simp)
      (by intro s s' b b' h _; simp only [specBase, specUniquePropertyCode]; exact_mod_cast h)
  refine ⟨?_, by decide, by decide⟩
  rw [hF]
  simpa using hpF

/-- An instance of C11: two properties share the region index 3 (one Robin, one
generic Neumann), index 4 is a Dirichlet property and key 7 is bound already. -/
theorem preprocessA_couples_once_witness :
    bindings (preprocessA true [⟨PropertyType.ROBIN, 3⟩, ⟨PropertyType.NEUMANN_GENERIC, 3⟩,
        ⟨PropertyType.DIRICHLET, 4⟩] [(7, IntegrandRef.he)]) 3 = [IntegrandRef.wdc] ∧
    bindings (preprocessA true [⟨PropertyType.ROBIN, 3⟩, ⟨PropertyType.NEUMANN_GENERIC, 3⟩,
        ⟨PropertyType.DIRICHLET, 4⟩] [(7, IntegrandRef.he)]) 7 = [IntegrandRef.he] :=
  ⟨(preprocessA_couples_once true [⟨PropertyType.ROBIN, 3⟩, ⟨PropertyType.NEUMANN_GENERIC, 3⟩,
      ⟨PropertyType.DIRICHLET, 4⟩] [(7, IntegrandRef.he)]).2.1 ⟨PropertyType.ROBIN, 3⟩
      (by simp) (by decide) (by decide) (by decide),
   (preprocessA_couples_once true [⟨PropertyType.ROBIN, 3⟩, ⟨PropertyType.NEUMANN_GENERIC, 3⟩,
      ⟨PropertyType.DIRICHLET, 4⟩] [(7, IntegrandRef.he)]).2.2.1 7 (by decide) (by decide)⟩

/-- An instance of C12: a stored energy spec with an empty integral between a
flux spec and a second stored energy spec, on step 3 with stride 2 and save
increment 1. -/
theorem saveStep_empty_integral_witness :
    (saveStep 0 (fun _ code _ => if code = 1000 then [] else [5])
        ⟨fun _ => true, fun _ _ => 0, fun _ _ => true⟩ ⟨1, 0⟩
        { fluxes := [{ file := "f.dat", set := "F", code := 3000 }],
          senergy := [{ file := "a.dat", set := "A", code := 1000, timeIncr := 2 },
                      { file := "b.dat", set := "B", code := 2000 }] }
        ⟨3, 1⟩ ⟨⟨fun _ => none, [], [], [], fun _ => true⟩, [], [], []⟩).map Prod.fst
      = some false ∧
    (saveStep 0 (fun _ code _ => if code = 1000 then [] else [5])
        ⟨fun _ => true, fun _ _ => 0, fun _ _ => true⟩ ⟨1, 0⟩
        { fluxes := [{ file := "f.dat", set := "F", code := 3000 }],
          senergy := [{ file := "a.dat", set := "A", code := 1000, timeIncr := 2 },
                      { file := "b.dat", set := "B", code := 2000 }] }
        ⟨3, 1⟩ ⟨⟨fun _ => none, [], [], [], fun _ => true⟩, [], [], []⟩).map
        (fun r => r.2.pointSamples) = some [⟨3, 1⟩] := by
  obtain ⟨_, r, _, hr, h1, h2, _⟩ :=
    saveStep_empty_integral 0 (fun _ code _ => if code = 1000 then [] else [5])
      ⟨fun _ => true, fun _ _ => 0, fun _ _ => true⟩ ⟨1, 0⟩
      { fluxes := [{ file := "f.dat", set := "F", code := 3000 }],
        senergy := [{ file := "a.dat", set := "A", code := 1000, timeIncr := 2 },
                    { file := "b.dat", set := "B", code := 2000 }] }
      ⟨3, 1⟩ ⟨⟨fun _ => none, [], [], [], fun _ => true⟩, [], [], []⟩ false []
      [{ file := "b.dat", set := "B", code := 2000 }]
      { file := "a.dat", set := "A", code := 1000, timeIncr := 2 }
      rfl (by unfold due; decide) rfl (by decide)
  rw [hr]
  exact ⟨by simp [h1], by simp [h2]⟩

end ThermoElastic
